import Mathlib

/-! # dcnet-ircbot: registry and sequencer of `ircbot.cpp`

A shallow embedding of `src/ircbot.cpp` and the properties of its player/game
registry, of its topic check and sweep, of its channel-join sequencer and of its mutex
scopes.

Conventions of the embedding.

* A C string (`const char *`, `std::string`) is the list of its characters before the
  terminating NUL: `Str := List Char`.
* `std::set<std::string>` is a `Finset Str`, `std::map<std::string, V>` is a `Finmap`.
* The globals touched by a handler are passed in and returned; what the handler sends out
  (IRC commands, notifications, log lines) is returned as a list of `Output`, in call order.
* What the external libraries decide (return codes of `irc_cmd_*`, whether `discordNotif`
  throws, `discordEscape`) is a parameter `Env`.
-/

namespace IrcBot

/-- A C string: its characters before the terminating NUL. -/
abbrev Str := List Char

/-! ## String primitives -/

/-- The test `strncmp(a, b, n) == 0`: the first `n` characters agree (a shorter string
differs at its terminator). -/
def strncmpEq (a b : Str) (n : Nat) : Bool :=
  decide (a.take n = b.take n)

/-- Offset returned by `strchr(s, c)`: the first occurrence of `c` in `s`, `none` for
`nullptr`. -/
def strchr : Str → Char → Option Nat
  | [], _ => none
  | x :: xs, c => if x = c then some 0 else (strchr xs c).map (· + 1)

/-- The string `std::string{ s + b, s + e }` built from an iterator range. -/
def substr (s : Str) (b e : Nat) : Str :=
  (s.drop b).take (e - b)

/-! ## Constants -/

def BOT_NAME : Str := "DCNetBot".toList

def STAR_CHAN : Str := "#GSP!slancerdc".toList

def TET_CHAN : Str := "#TNT_Lobby".toList

/-- The array `Channels[]`. -/
def Channels : List Str :=
  [ "#Aerial".toList,
    "#Retro".toList,
    "#Tankxz".toList,
    "#Tournament".toList,
    "#Pro".toList,
    "#Strategy".toList,
    "#Drops_only".toList,
    "#Blast_Zone".toList,
    "#ClockWorm_Orange".toList,
    "#Arms_Race".toList,
    "#High_Explosive".toList,
    "#FullRope".toList,
    "#Sudden_Sinking".toList,
    "#Men_at_Worm".toList,
    "#Artillery".toList,
    "#Armageddon".toList,
    "#Kung_Food".toList,
    STAR_CHAN,
    TET_CHAN ]

/-- The array `Topics[std::size(Channels)]`: seventeen initialisers, the two remaining
elements are value-initialised to `nullptr` (`none`). -/
def Topics : List (Option Str) :=
  [ some "2 Worms are equipped with Jet Packs".toList,
    some "23 The original Worms default scheme".toList,
    some "29 Immobile worms, a battle to the death".toList,
    some "30 For the more advanced players, who prefer the more difficult weapons".toList,
    some "22 Manual Worm placement and Scheme for the more advanced player".toList,
    some "".toList,
    some "12 All weapons are dropped via crate".toList,
    some "8 Powerful weapons are provided. High worm energy makes a good battle".toList,
    some "10 A variety of hugely powerful weapons, set on delay".toList,
    some "5 Hugely powerful weapons released gradually as the battle progresses".toList,
    some "17 Highly explosive weapons for good destruction".toList,
    some "15 For players who like to use the rope to good effect".toList,
    some "28 With instant water rise".toList,
    some "20 Defend yourself before it is too late".toList,
    some "6 Like Tankxz".toList,
    some "4 Instant nuclear explosion leaves your Worms with health problems".toList,
    some "".toList,
    none,
    none ]

/-- The value `std::size(Channels)`. -/
abbrev nChannels : Nat := 19

/-- The element `Channels[i]`. -/
def channelAt (i : Fin nChannels) : Str :=
  Channels.get ⟨i.val, i.isLt⟩

/-- The element `Topics[i]`. -/
def topicAt (i : Fin nChannels) : Option Str :=
  Topics.get ⟨i.val, i.isLt⟩

/-! ## Data model -/

/-- The struct `Game`. -/
structure Game where
  gameId : Str
  creator : Str
  channel : Str
  players : List Str
deriving DecidableEq

/-- The four collections guarded by `mutex`. -/
structure Registry where
  wwpPlayers : Finmap (fun _ : Str => Str)
  wwpGames : Finmap (fun _ : Str => Game)
  starlancerPlayers : Finset Str
  tetrisPlayers : Finset Str
deriving DecidableEq

/-- The record `Notif` of the notification library, as far as the bot fills it. -/
structure Notif where
  content : Str
  title : Str
  text : Str
deriving DecidableEq

/-- A line written to `stderr`. -/
inductive LogLine where
  | connected (origin : Option Str)
  | joinFailed
  | userJoined (nick channel : Str)
  | joined (channel : Str)
  | topicFailed
  | topicChanged (channel topic : Str)
  | unknownChannel (channel : Str)
  | discordError (what : Str)
deriving DecidableEq

/-- What a handler sends out. -/
inductive Output where
  | cmdUserMode (mode : Str)
  | cmdJoin (channel : Str)
  | cmdTopic (channel topic : Str)
  | discordNotif (game : Str) (n : Notif)
  | log (l : LogLine)
deriving DecidableEq

/-- What the external libraries decide: `discordEscape`, whether `discordNotif` returns
(`ok`) or throws a `DiscordException` (`error what`), and the return codes of the IRC
commands (`0` is success). -/
structure Env where
  discordEscape : Str → Str
  discordNotif : Str → Notif → Except Str Unit
  irc_cmd_join : Str → Int
  irc_cmd_topic : Str → Str → Int

/-- The globals of the program. `joinIndex` and `topicIndex` are `unsigned`; they are only
incremented below `nChannels`, so they never wrap. -/
structure Bot where
  curTopics : Fin nChannels → Str
  joinIndex : Nat
  topicIndex : Nat
  reg : Registry

/-! ## Notifications -/

/-- The embed text built by the `for` loops: every name escaped and followed by a newline. -/
def rosterText (env : Env) (names : List Str) : Str :=
  (names.map (fun p => env.discordEscape p ++ ['\n'])).flatten

/-- Keys of a `std::map` in iteration order. -/
def mapKeys (m : Finmap (fun _ : Str => Str)) : List Str :=
  m.keys.sort (· ≤ ·)

def discordWwpPlayerJoined (env : Env) (r : Registry) (nick channel : Str) : Str × Notif :=
  ("wwp".toList,
    { content := "Player **".toList ++ env.discordEscape nick
        ++ "** has joined channel **".toList ++ channel ++ "**".toList
      title := "Players".toList
      text := rosterText env (mapKeys r.wwpPlayers) })

def discordCreateWwpGame (env : Env) (r : Registry) (game : Game) : Str × Notif :=
  ("wwp".toList,
    { content := "Player **".toList ++ env.discordEscape game.creator
        ++ "** created a game in channel **".toList ++ game.channel ++ "**".toList
      title := "Players".toList
      text := rosterText env (mapKeys r.wwpPlayers) })

def discordTetrisPlayerJoined (env : Env) (r : Registry) (nick : Str) : Str × Notif :=
  ("nexttetris".toList,
    { content := "Player **".toList ++ env.discordEscape nick
        ++ "** has entered the online lobby".toList
      title := "Players".toList
      text := rosterText env (r.tetrisPlayers.sort (· ≤ ·)) })

def discordTetrisChallengeAccepted (env : Env) (r : Registry) (nick challenger : Str) :
    Str × Notif :=
  ("nexttetris".toList,
    { content := "Player **".toList ++ env.discordEscape nick ++ "** has accepted ".toList
        ++ "**".toList ++ env.discordEscape challenger ++ "**'s challenge!".toList
      title := "Players".toList
      text := rosterText env (r.tetrisPlayers.sort (· ≤ ·)) })

def discordStarlancerPlayerJoined (r : Registry) : Str × Notif :=
  ("starlancer".toList,
    { content := "A new player has connected".toList
      title := "Players".toList
      text := (toString r.starlancerPlayers.card).toList
        ++ (if r.starlancerPlayers.card ≥ 2 then " players are online".toList
            else " player is online".toList) })

/-- A call of `discordNotif` that is the last statement of a `try` block: the call, and the
line logged by the `catch` clause when it throws. -/
def notify (env : Env) (n : Str × Notif) : List Output :=
  match env.discordNotif n.1 n.2 with
  | .ok _ => [.discordNotif n.1 n.2]
  | .error what => [.discordNotif n.1 n.2, .log (.discordError what)]

/-! ## Registry handlers -/

def Registry.empty : Registry :=
  { wwpPlayers := ∅, wwpGames := ∅, starlancerPlayers := ∅, tetrisPlayers := ∅ }

def resetStats (_r : Registry) : Registry :=
  { starlancerPlayers := ∅, tetrisPlayers := ∅, wwpPlayers := ∅, wwpGames := ∅ }

/-- The function `playerJoined`. `channel + 1` is the channel without its first character
(a channel name is never empty). -/
def playerJoined (env : Env) (r : Registry) (nick channel : Str) : Registry × List Output :=
  if channel = STAR_CHAN then
    let r' := { r with starlancerPlayers := insert nick r.starlancerPlayers }
    (r', notify env (discordStarlancerPlayerJoined r'))
  else if channel = TET_CHAN then
    let r' := { r with tetrisPlayers := insert nick r.tetrisPlayers }
    (r', notify env (discordTetrisPlayerJoined env r' nick))
  else
    let r' := { r with wwpPlayers := r.wwpPlayers.insert nick channel }
    (r', notify env (discordWwpPlayerJoined env r' nick channel.tail))

/-- The function `playerParted`; `channel = none` is the call with `nullptr`. -/
def playerParted (r : Registry) (nick : Str) (channel : Option Str) : Registry :=
  let r1 := if channel = none ∨ channel = some STAR_CHAN then
      { r with starlancerPlayers := r.starlancerPlayers.erase nick } else r
  let r2 := if channel = none ∨ channel = some TET_CHAN then
      { r1 with tetrisPlayers := r1.tetrisPlayers.erase nick } else r1
  { r2 with wwpPlayers := r2.wwpPlayers.erase nick }

/-- The loop over `players` in the leave branch of `playerMessage`: erase the first element
equal to `nick` and stop. -/
def eraseFirst (nick : Str) : List Str → List Str
  | [] => []
  | p :: ps => if p = nick then ps else p :: eraseFirst nick ps

/-- The function `playerMessage`. -/
def playerMessage (env : Env) (r : Registry) (nick channel msg : Str) :
    Registry × List Output :=
  if channel = STAR_CHAN then (r, [])
  else if channel = TET_CHAN then
    if !strncmpEq msg "ACCEPT*".toList 7 then (r, [])
    else
      let msg7 := msg.drop 7
      match strchr msg7 '*' with
      | none => (r, [])
      | some star =>
        let challenger := substr msg7 0 star
        (r, notify env (discordTetrisChallengeAccepted env r nick challenger))
  else if strncmpEq "<r:gamename>".toList msg 12 then
    match strchr msg '!' with
    | none => (r, [])
    | some bang =>
      let creator := substr msg 12 bang
      let gameId := msg.drop (bang + 1)
      if creator = nick then
        let game : Game :=
          { gameId := gameId, creator := creator, channel := channel.tail,
            players := [creator] }
        let r' := { r with wwpGames := r.wwpGames.insert gameId game }
        (r', notify env (discordCreateWwpGame env r' game))
      else
        match r.wwpGames.lookup gameId with
        | some g =>
          ({ r with wwpGames :=
              r.wwpGames.insert gameId { g with players := g.players ++ [nick] } }, [])
        | none => (r, [])
  else if strncmpEq "<c:".toList msg 3 then
    match strchr msg '!' with
    | none => (r, [])
    | some bang =>
      match strchr (msg.drop bang) '>' with
      | none => (r, [])
      | some e =>
        let creator := substr msg 3 bang
        let gameId := substr msg (bang + 1) (bang + e)
        if creator = nick then
          ({ r with wwpGames := r.wwpGames.erase gameId }, [])
        else
          match r.wwpGames.lookup gameId with
          | none => (r, [])
          | some g =>
            ({ r with wwpGames :=
                r.wwpGames.insert gameId { g with players := eraseFirst nick g.players } }, [])
  else (r, [])

/-! ## Topic check and sequencer -/

/-- The loop of `checkChannelTopic` over the indices still to visit. -/
def checkChannelTopicLoop (env : Env) (channel topic : Str) :
    List (Fin nChannels) → (Fin nChannels → Str) → (Fin nChannels → Str) × Bool × List Output
  | [], cur => (cur, false, [.log (.unknownChannel channel)])
  | i :: rest, cur =>
    if channelAt i = channel then
      let cur' := Function.update cur i topic
      match topicAt i with
      | some t =>
        if cur' i ≠ t then
          (cur', true,
            [.cmdTopic (channelAt i) t,
              .log (if env.irc_cmd_topic (channelAt i) t ≠ 0 then .topicFailed
                    else .topicChanged (channelAt i) t)])
        else (cur', false, [])
      | none => (cur', false, [])
    else checkChannelTopicLoop env channel topic rest cur

/-- The function `checkChannelTopic`: new `curTopics`, return value, outputs. -/
def checkChannelTopic (env : Env) (cur : Fin nChannels → Str) (channel topic : Str) :
    (Fin nChannels → Str) × Bool × List Output :=
  checkChannelTopicLoop env channel topic (List.finRange nChannels) cur

/-- The sweep loop shared by `event_join` and `event_topic`,
`for (; topicIndex < size; topicIndex++) if (check(...)) { topicIndex++; break; }`,
with `fuel` bounding the number of iterations. -/
def topicSweep (env : Env) : Nat → (Fin nChannels → Str) → Nat →
    (Fin nChannels → Str) × Nat × List Output
  | 0, cur, idx => (cur, idx, [])
  | fuel + 1, cur, idx =>
    if h : idx < nChannels then
      let res := checkChannelTopic env cur (channelAt ⟨idx, h⟩) (cur ⟨idx, h⟩)
      if res.2.1 then (res.1, idx + 1, res.2.2)
      else
        let next := topicSweep env fuel res.1 (idx + 1)
        (next.1, next.2.1, res.2.2 ++ next.2.2)
    else (cur, idx, [])

/-- The sweep started at `idx`: at most `nChannels - idx` iterations are possible. -/
def runSweep (env : Env) (cur : Fin nChannels → Str) (idx : Nat) :
    (Fin nChannels → Str) × Nat × List Output :=
  topicSweep env (nChannels - idx) cur idx

/-- An event delivered by the IRC library: `origin` may be `nullptr` (`none`), `params` has
`count` elements. -/
inductive Event where
  | connect (origin : Option Str) (params : List Str)
  | join (origin : Option Str) (params : List Str)
  | part (origin : Option Str) (params : List Str)
  | channel (origin : Option Str) (params : List Str)
  | numeric (event : Nat) (origin : Option Str) (params : List Str)
  | topic (origin : Option Str) (params : List Str)
  | quit (origin : Str) (params : List Str)
deriving DecidableEq

/-- The element `params[i]`; handlers that do not test `count` rely on the library to
provide it, the embedding reads the empty string otherwise. -/
def param (params : List Str) (i : Nat) : Str :=
  params.getD i []

def event_connect (env : Env) (b : Bot) (origin : Option Str) : Bot × List Output :=
  let first := channelAt ⟨0, by decide⟩
  ({ b with curTopics := fun _ => [], joinIndex := 1 },
    [.log (.connected origin), .cmdUserMode "+iB".toList, .cmdJoin first]
      ++ (if env.irc_cmd_join first ≠ 0 then [.log .joinFailed] else []))

def event_join (env : Env) (b : Bot) (origin : Option Str) (params : List Str) :
    Bot × List Output :=
  match origin with
  | none => (b, [])
  | some nick =>
    if params.length = 0 then (b, [])
    else if BOT_NAME ≠ nick then
      let res := playerJoined env b.reg nick (param params 0)
      ({ b with reg := res.1 }, .log (.userJoined nick (param params 0)) :: res.2)
    else if h : b.joinIndex < nChannels then
      let c := channelAt ⟨b.joinIndex, h⟩
      ({ b with joinIndex := b.joinIndex + 1 },
        [.log (.joined (param params 0)), .cmdJoin c]
          ++ (if env.irc_cmd_join c ≠ 0 then [.log .joinFailed] else []))
    else
      let res := runSweep env b.curTopics 0
      ({ b with curTopics := res.1, topicIndex := res.2.1 },
        .log (.joined (param params 0)) :: res.2.2)

def event_part (b : Bot) (origin : Option Str) (params : List Str) : Bot :=
  match origin with
  | none => b
  | some nick =>
    if params.length = 0 then b
    else { b with reg := playerParted b.reg nick (some (param params 0)) }

def event_channel (env : Env) (b : Bot) (origin : Option Str) (params : List Str) :
    Bot × List Output :=
  match origin with
  | none => (b, [])
  | some nick =>
    if params.length < 2 then (b, [])
    else
      let res := playerMessage env b.reg nick (param params 0) (param params 1)
      ({ b with reg := res.1 }, res.2)

def event_numeric (env : Env) (b : Bot) (event : Nat) (params : List Str) :
    Bot × List Output :=
  if event = 332 then
    let res := checkChannelTopic env b.curTopics (param params 1) (param params 2)
    ({ b with curTopics := res.1 }, res.2.2)
  else (b, [])

def event_topic (env : Env) (b : Bot) (params : List Str) : Bot × List Output :=
  let topic := if params.length ≥ 2 then param params 1 else []
  let res := checkChannelTopic env b.curTopics (param params 0) topic
  let sw := runSweep env res.1 b.topicIndex
  ({ b with curTopics := sw.1, topicIndex := sw.2.1 }, res.2.2 ++ sw.2.2)

def event_quit (b : Bot) (origin : Str) : Bot :=
  { b with reg := playerParted b.reg origin none }

/-- The callback table set up in `main`: one event handled to completion. -/
def dispatch (env : Env) (b : Bot) : Event → Bot × List Output
  | .connect origin _ => event_connect env b origin
  | .join origin params => event_join env b origin params
  | .part origin params => (event_part b origin params, [])
  | .channel origin params => event_channel env b origin params
  | .numeric event _ params => event_numeric env b event params
  | .topic _ params => event_topic env b params
  | .quit origin _ => (event_quit b origin, [])

/-- The globals at program start: zero-initialised. -/
def Bot.init : Bot :=
  { curTopics := fun _ => [], joinIndex := 0, topicIndex := 0, reg := Registry.empty }

/-- State after a sequence of events, handled one at a time. -/
def run (env : Env) (b : Bot) (es : List Event) : Bot :=
  es.foldl (fun s e => (dispatch env s e).1) b

/-- The end of one iteration of the loop of `main`: `resetStats()`. -/
def Bot.resetStats (b : Bot) : Bot :=
  { b with reg := IrcBot.resetStats b.reg }

/-! ## Registry calls and embedded-protocol tokens -/

/-- A call of one of the registry functions: `playerJoined`, `playerParted` (a part with its
channel, a quit with `none`), `playerMessage`, `resetStats`. -/
inductive Call where
  | joined (nick channel : Str)
  | parted (nick : Str) (channel : Option Str)
  | message (nick channel msg : Str)
  | reset
deriving DecidableEq

def applyCall (env : Env) (r : Registry) : Call → Registry
  | .joined nick channel => (playerJoined env r nick channel).1
  | .parted nick channel => playerParted r nick channel
  | .message nick channel msg => (playerMessage env r nick channel msg).1
  | .reset => resetStats r

def runCalls (env : Env) (r : Registry) (cs : List Call) : Registry :=
  cs.foldl (applyCall env) r

/-- The text of a create/join token naming creator `s` and identifier `g`. -/
def joinToken (s g : Str) : Str :=
  "<r:gamename>".toList ++ s ++ "!".toList ++ g

/-- The text of a leave token naming creator `s` and identifier `g`. -/
def leaveToken (s g : Str) : Str :=
  "<c:".toList ++ s ++ "!".toList ++ g ++ ">".toList

/-- Creator and identifier that `playerMessage` reads from a text taken as a create/join
token, `none` when the text is not taken as one or is ignored. -/
def parseJoin (msg : Str) : Option (Str × Str) :=
  if strncmpEq "<r:gamename>".toList msg 12 then
    (strchr msg '!').map fun bang => (substr msg 12 bang, msg.drop (bang + 1))
  else none

/-- Creator and identifier that `playerMessage` reads from a text taken as a leave token,
`none` when the text is not taken as one or is ignored. -/
def parseLeave (msg : Str) : Option (Str × Str) :=
  if strncmpEq "<r:gamename>".toList msg 12 then none
  else if strncmpEq "<c:".toList msg 3 then
    (strchr msg '!').bind fun bang =>
      (strchr (msg.drop bang) '>').map fun e =>
        (substr msg 3 bang, substr msg (bang + 1) (bang + e))
  else none

/-- An environment in which every external call succeeds and nothing is escaped. -/
def Env.quiet : Env :=
  { discordEscape := id
    discordNotif := fun _ _ => .ok ()
    irc_cmd_join := fun _ => 0
    irc_cmd_topic := fun _ _ => 0 }

/-- A session created by `alice` with three later participants, used as a concrete input. -/
def Game.sample : Game :=
  { gameId := "m".toList, creator := "alice".toList, channel := "Aerial".toList,
    players := ["alice".toList, "bob".toList, "carol".toList, "bob".toList] }

/-- A registry holding the session `Game.sample` under key `m`, used as a concrete input. -/
def Registry.sample : Registry :=
  { Registry.empty with wwpGames := Finmap.singleton "m".toList Game.sample }

/-- Every session has its stored creator in its participant list, as the first element. -/
def creatorFirst (r : Registry) : Prop :=
  ∀ G g, r.wwpGames.lookup G = some g →
    g.creator ∈ g.players ∧ g.players.head? = some g.creator

/-- A chat message that `playerMessage` takes as a leave token naming a creator other than
its sender, while its sender is the stored creator of the session the token identifies. -/
def misaddressedLeave (r : Registry) : Call → Bool
  | .message nick channel msg =>
    decide (channel ≠ STAR_CHAN) && decide (channel ≠ TET_CHAN) &&
      match parseLeave msg with
      | some (creator, gameId) =>
        decide (creator ≠ nick) &&
          match r.wwpGames.lookup gameId with
          | some g => decide (g.creator = nick)
          | none => false
      | none => false
  | _ => false

/-- No call of the sequence is a misaddressed leave in the state it is handled in. -/
def wellAddressed (env : Env) (r : Registry) : List Call → Bool
  | [] => true
  | c :: cs => !misaddressedLeave r c && wellAddressed env (applyCall env r c) cs

/-- A call that removes the session stored under `G` or gives it a creator other than `S`:
the full reset, a leave token for `G` whose named creator is its sender, a create token for
`G` sent by a nickname other than `S`. -/
def removesOrReplaces (G S : Str) : Call → Bool
  | .message nick channel msg =>
    decide (channel ≠ STAR_CHAN) && decide (channel ≠ TET_CHAN) &&
      ((decide (parseJoin msg = some (nick, G)) && decide (nick ≠ S))
        || decide (parseLeave msg = some (nick, G)))
  | .reset => true
  | _ => false

/-- The set-topic commands among the outputs, as (channel, topic), in order. -/
def topicCmds : List Output → List (Str × Str)
  | [] => []
  | .cmdTopic c t :: rest => (c, t) :: topicCmds rest
  | _ :: rest => topicCmds rest

/-- State and outputs after a sequence of events, handled one at a time. -/
def runOut (env : Env) (b : Bot) : List Event → Bot × List Output
  | [] => (b, [])
  | e :: es =>
    ((runOut env (dispatch env b e).1 es).1,
      (dispatch env b e).2 ++ (runOut env (dispatch env b e).1 es).2)

/-- The join commands among the outputs, in order. -/
def joinCmds : List Output → List Str
  | [] => []
  | .cmdJoin c :: rest => c :: joinCmds rest
  | _ :: rest => joinCmds rest

/-- A join event. -/
def isJoin : Event → Bool
  | .join _ _ => true
  | _ => false

/-- A join confirmation by the bot itself: a join event that `event_join` handles (origin
present, at least one parameter) whose origin is `BOT_NAME`. -/
def isBotJoin : Event → Bool
  | .join (some nick) (_ :: _) => decide (BOT_NAME = nick)
  | _ => false

/-! ## The sequencer with run-time array indices

The same handlers with the three arrays indexed by a plain number, as in the source; an
access out of range makes the handler fail (`none`). -/

/-- The element `Channels[i]` for a run-time index. -/
def channelsGet? (i : Nat) : Option Str :=
  Channels[i]?

/-- The element `Topics[i]` for a run-time index. -/
def topicsGet? (i : Nat) : Option (Option Str) :=
  Topics[i]?

/-- The element `curTopics[i]` for a run-time index. -/
def curGet? (cur : Fin nChannels → Str) (i : Nat) : Option Str :=
  if h : i < nChannels then some (cur ⟨i, h⟩) else none

/-- The assignment `curTopics[i] = v` for a run-time index. -/
def curSet? (cur : Fin nChannels → Str) (i : Nat) (v : Str) : Option (Fin nChannels → Str) :=
  if h : i < nChannels then some (Function.update cur ⟨i, h⟩ v) else none

/-- The loop of `checkChannelTopic` over the indices still to visit. -/
def checkChannelTopicLoopChecked (env : Env) (channel topic : Str) :
    List Nat → (Fin nChannels → Str) → Option ((Fin nChannels → Str) × Bool × List Output)
  | [], cur => some (cur, false, [.log (.unknownChannel channel)])
  | i :: rest, cur => do
    let c ← channelsGet? i
    if c = channel then
      let cur' ← curSet? cur i topic
      let want ← topicsGet? i
      match want with
      | some t =>
        let now ← curGet? cur' i
        if now ≠ t then
          pure (cur', true,
            [.cmdTopic c t,
              .log (if env.irc_cmd_topic c t ≠ 0 then .topicFailed else .topicChanged c t)])
        else pure (cur', false, [])
      | none => pure (cur', false, [])
    else checkChannelTopicLoopChecked env channel topic rest cur

/-- The function `checkChannelTopic`, `i` running from 0 below `std::size(Channels)`. -/
def checkChannelTopicChecked (env : Env) (cur : Fin nChannels → Str) (channel topic : Str) :
    Option ((Fin nChannels → Str) × Bool × List Output) :=
  checkChannelTopicLoopChecked env channel topic (List.range nChannels) cur

/-- The sweep loop, `fuel` bounding the number of iterations. -/
def topicSweepChecked (env : Env) : Nat → (Fin nChannels → Str) → Nat →
    Option ((Fin nChannels → Str) × Nat × List Output)
  | 0, cur, idx => some (cur, idx, [])
  | fuel + 1, cur, idx =>
    if idx < nChannels then do
      let c ← channelsGet? idx
      let t ← curGet? cur idx
      let res ← checkChannelTopicChecked env cur c t
      if res.2.1 then pure (res.1, idx + 1, res.2.2)
      else
        let next ← topicSweepChecked env fuel res.1 (idx + 1)
        pure (next.1, next.2.1, res.2.2 ++ next.2.2)
    else some (cur, idx, [])

def runSweepChecked (env : Env) (cur : Fin nChannels → Str) (idx : Nat) :
    Option ((Fin nChannels → Str) × Nat × List Output) :=
  topicSweepChecked env (nChannels - idx) cur idx

def event_connectChecked (env : Env) (b : Bot) (origin : Option Str) :
    Option (Bot × List Output) := do
  let first ← channelsGet? 0
  pure ({ b with curTopics := fun _ => [], joinIndex := 1 },
    [.log (.connected origin), .cmdUserMode "+iB".toList, .cmdJoin first]
      ++ (if env.irc_cmd_join first ≠ 0 then [.log .joinFailed] else []))

def event_joinChecked (env : Env) (b : Bot) (origin : Option Str) (params : List Str) :
    Option (Bot × List Output) :=
  match origin with
  | none => some (b, [])
  | some nick =>
    if params.length = 0 then some (b, [])
    else if BOT_NAME ≠ nick then
      let res := playerJoined env b.reg nick (param params 0)
      some ({ b with reg := res.1 }, .log (.userJoined nick (param params 0)) :: res.2)
    else if b.joinIndex < nChannels then do
      let c ← channelsGet? b.joinIndex
      pure ({ b with joinIndex := b.joinIndex + 1 },
        [.log (.joined (param params 0)), .cmdJoin c]
          ++ (if env.irc_cmd_join c ≠ 0 then [.log .joinFailed] else []))
    else do
      let res ← runSweepChecked env b.curTopics 0
      pure ({ b with curTopics := res.1, topicIndex := res.2.1 },
        .log (.joined (param params 0)) :: res.2.2)

def event_numericChecked (env : Env) (b : Bot) (event : Nat) (params : List Str) :
    Option (Bot × List Output) :=
  if event = 332 then do
    let res ← checkChannelTopicChecked env b.curTopics (param params 1) (param params 2)
    pure ({ b with curTopics := res.1 }, res.2.2)
  else some (b, [])

def event_topicChecked (env : Env) (b : Bot) (params : List Str) :
    Option (Bot × List Output) := do
  let topic := if params.length ≥ 2 then param params 1 else []
  let res ← checkChannelTopicChecked env b.curTopics (param params 0) topic
  let sw ← runSweepChecked env res.1 b.topicIndex
  pure ({ b with curTopics := sw.1, topicIndex := sw.2.1 }, res.2.2 ++ sw.2.2)

/-- The callback table with the array-indexing handlers checked. -/
def dispatchChecked (env : Env) (b : Bot) : Event → Option (Bot × List Output)
  | .connect origin _ => event_connectChecked env b origin
  | .join origin params => event_joinChecked env b origin params
  | .numeric event _ params => event_numericChecked env b event params
  | .topic _ params => event_topicChecked env b params
  | e => some (dispatch env b e)

/-! ## Mutex scopes

What each function does to the mutex and to the four collections, in program order: the
scopes `{ Lock _(mutex); ... }` of the source, the accesses inside and outside them, and the
calls of the external interfaces. -/

/-- One of the four collections guarded by `mutex`. -/
inductive Coll where
  | wwpPlayers
  | wwpGames
  | starlancerPlayers
  | tetrisPlayers
deriving DecidableEq

/-- An external interface. -/
inductive Iface where
  | notification
  | status
  | probe
deriving DecidableEq

/-- A step of a function as far as the mutex is concerned: taking and releasing `mutex`
(construction and destruction of a `Lock`), `write`: an operation on the collection itself
(`insert`, `erase`, `clear`, assignment through `operator[]`), `update`: a change made in
place to an element stored in the collection, `read`: `find`, `size` or an iteration, and a
call of an external interface. -/
inductive Act where
  | lock
  | unlock
  | write (c : Coll)
  | update (c : Coll)
  | read (c : Coll)
  | call (i : Iface)
deriving DecidableEq

/-- Steps of `resetStats`. -/
def resetStatsActs : List Act :=
  [.lock, .write .starlancerPlayers, .write .tetrisPlayers, .write .wwpPlayers,
    .write .wwpGames, .unlock]

/-- Steps of `playerJoined`: the insertion in its own scope, then the notification, which
reads the collection to build its text. -/
def playerJoinedActs (channel : Str) : List Act :=
  if channel = STAR_CHAN then
    [.lock, .write .starlancerPlayers, .unlock, .read .starlancerPlayers, .call .notification]
  else if channel = TET_CHAN then
    [.lock, .write .tetrisPlayers, .unlock, .read .tetrisPlayers, .call .notification]
  else
    [.lock, .write .wwpPlayers, .unlock, .read .wwpPlayers, .call .notification]

/-- Steps of `playerParted`: the `Lock` spans the whole function. -/
def playerPartedActs (channel : Option Str) : List Act :=
  [.lock]
    ++ (if channel = none ∨ channel = some STAR_CHAN then [.write .starlancerPlayers] else [])
    ++ (if channel = none ∨ channel = some TET_CHAN then [.write .tetrisPlayers] else [])
    ++ [.write .wwpPlayers, .unlock]

/-- Steps of `playerMessage`, branch by branch as in `playerMessage`: the create and the
creator-leave branch take the mutex around `wwpGames[gameId] = game` and
`wwpGames.erase(gameId)`; the join and the participant-leave branch call `wwpGames.find` and
change `it->second.players` with no `Lock` in scope. -/
def playerMessageActs (r : Registry) (nick channel msg : Str) : List Act :=
  if channel = STAR_CHAN then []
  else if channel = TET_CHAN then
    if !strncmpEq msg "ACCEPT*".toList 7 then []
    else
      match strchr (msg.drop 7) '*' with
      | none => []
      | some _ => [.read .tetrisPlayers, .call .notification]
  else if strncmpEq "<r:gamename>".toList msg 12 then
    match strchr msg '!' with
    | none => []
    | some bang =>
      if substr msg 12 bang = nick then
        [.lock, .write .wwpGames, .unlock, .read .wwpPlayers, .call .notification]
      else
        match r.wwpGames.lookup (msg.drop (bang + 1)) with
        | some _ => [.read .wwpGames, .update .wwpGames]
        | none => [.read .wwpGames]
  else if strncmpEq "<c:".toList msg 3 then
    match strchr msg '!' with
    | none => []
    | some bang =>
      match strchr (msg.drop bang) '>' with
      | none => []
      | some e =>
        if substr msg 3 bang = nick then [.lock, .write .wwpGames, .unlock]
        else
          match r.wwpGames.lookup (substr msg (bang + 1) (bang + e)) with
          | none => [.read .wwpGames]
          | some g =>
            if nick ∈ g.players then [.read .wwpGames, .update .wwpGames]
            else [.read .wwpGames]
  else []

/-- Steps of one iteration of the loop of `statusUpdater`: the four `size()` under the mutex,
then `statusUpdate` twice, `statusCommit`, the probe `pingMsxAlpha` and, when it answers
(`ping`), `statusUpdate` and `statusCommit` again, then `statusGetInterval`. -/
def statusUpdaterActs (ping : Bool) : List Act :=
  [.lock, .read .wwpPlayers, .read .wwpGames, .read .tetrisPlayers, .read .starlancerPlayers,
    .unlock, .call .status, .call .status, .call .status, .call .probe]
    ++ (if ping then [.call .status, .call .status] else [])
    ++ [.call .status]

/-- A write to a collection: an operation on the collection itself or an update in place. -/
def Act.isWrite : Act → Bool
  | .write _ => true
  | .update _ => true
  | _ => false

/-- An operation on a collection itself, the kind that can change its size. -/
def Act.isResize : Act → Bool
  | .write _ => true
  | _ => false

/-- Any access to a collection. -/
def Act.isAccess : Act → Bool
  | .write _ => true
  | .update _ => true
  | .read _ => true
  | _ => false

/-- The discipline along a sequence of steps, `held` telling whether the mutex is held at its
start: the mutex is taken only when free and released only when held, every step selected by
`guarded` happens while it is held, no external interface is called while it is held, and it
is free at the end. -/
def disciplined (guarded : Act → Bool) : Bool → List Act → Bool
  | held, [] => !held
  | held, .lock :: rest => !held && disciplined guarded true rest
  | held, .unlock :: rest => held && disciplined guarded false rest
  | held, .call _ :: rest => !held && disciplined guarded held rest
  | held, a :: rest => (!guarded a || held) && disciplined guarded held rest

/-! ## Strings -/

theorem strncmpEq_prefix (p rest : Str) :
    strncmpEq p (p ++ rest) p.length = true := by
  simp [strncmpEq]

theorem strchr_append_cons (a b : Str) (c : Char) (h : c ∉ a) :
    strchr (a ++ c :: b) c = some a.length := by
  induction a with
  | nil => simp [strchr]
  | cons x xs ih =>
    have hx : x ≠ c := fun e => h (by simp [e])
    have hxs : c ∉ xs := fun e => h (by simp [e])
    simp [strchr, hx, ih hxs]

theorem strchr_none (a : Str) (c : Char) (h : c ∉ a) : strchr a c = none := by
  induction a with
  | nil => simp [strchr]
  | cons x xs ih =>
    have hx : x ≠ c := fun e => h (by simp [e])
    have hxs : c ∉ xs := fun e => h (by simp [e])
    simp [strchr, hx, ih hxs]

theorem substr_mid (a b c : Str) :
    substr (a ++ b ++ c) a.length (a.length + b.length) = b := by
  simp [substr]

/-- What the parse of a token finds in `p ++ s ++ "!" ++ g` for a marker `p` of `n`
characters without `!`. -/
theorem token_fields (p s g : Str) (n : Nat) (hn : p.length = n) (hp : '!' ∉ p)
    (hs : '!' ∉ s) :
    strncmpEq p (p ++ s ++ '!' :: g) n = true
      ∧ strchr (p ++ s ++ '!' :: g) '!' = some (n + s.length)
      ∧ substr (p ++ s ++ '!' :: g) n (n + s.length) = s
      ∧ (p ++ s ++ '!' :: g).drop (n + s.length + 1) = g
      ∧ (p ++ s ++ '!' :: g).drop (n + s.length) = '!' :: g := by
  subst hn
  refine ⟨?_, ?_, ?_, ?_, ?_⟩
  · rw [List.append_assoc]; exact strncmpEq_prefix p _
  · have := strchr_append_cons (p ++ s) g '!' (by
      simp only [List.mem_append, not_or]; exact ⟨hp, hs⟩)
    simpa using this
  · exact substr_mid p s ('!' :: g)
  · have e : p ++ s ++ '!' :: g = (p ++ s ++ ['!']) ++ g := by simp
    rw [e, List.drop_left']
    simp only [List.length_append, List.length_singleton]
  · rw [List.drop_left']
    simp only [List.length_append]

theorem parseJoin_joinToken (s g : Str) (hs : '!' ∉ s) :
    parseJoin (joinToken s g) = some (s, g) := by
  obtain ⟨h1, h2, h3, h4, -⟩ :=
    token_fields "<r:gamename>".toList s g 12 rfl (by decide) hs
  have e : joinToken s g = "<r:gamename>".toList ++ s ++ '!' :: g := by
    simp only [joinToken, List.append_assoc]; rfl
  rw [parseJoin, e]
  simp only [h1, h2, h3, h4, if_true, Option.map_some']

theorem parseLeave_joinToken (s g : Str) : parseLeave (joinToken s g) = none := by
  have h1 : strncmpEq "<r:gamename>".toList (joinToken s g) 12 = true := by
    have e : joinToken s g = "<r:gamename>".toList ++ (s ++ "!".toList ++ g) := by
      simp only [joinToken, List.append_assoc]
    rw [e]; exact strncmpEq_prefix "<r:gamename>".toList _
  rw [parseLeave]
  simp only [h1, if_true]

theorem parseJoin_leaveToken (s g : Str) : parseJoin (leaveToken s g) = none := by
  have h1 : strncmpEq "<r:gamename>".toList (leaveToken s g) 12 = false := by
    simp [strncmpEq, leaveToken]
  rw [parseJoin]
  simp only [h1]; rfl

theorem parseLeave_leaveToken (s g : Str) (hs : '!' ∉ s) (hg : '>' ∉ g) :
    parseLeave (leaveToken s g) = some (s, g) := by
  obtain ⟨h1, h2, h3, -, h5⟩ :=
    token_fields "<c:".toList s (g ++ ">".toList) 3 rfl (by decide) hs
  have e : leaveToken s g = "<c:".toList ++ s ++ '!' :: (g ++ ">".toList) := by
    simp [leaveToken]
  have h0 : strncmpEq "<r:gamename>".toList (leaveToken s g) 12 = false := by
    simp [strncmpEq, leaveToken]
  have h6 : strchr ('!' :: (g ++ ">".toList)) '>' = some (g.length + 1) := by
    have := strchr_append_cons ('!' :: g) [] '>' (by
      simp only [List.mem_cons, not_or]; exact ⟨by decide, hg⟩)
    simpa using this
  have h7 : substr ("<c:".toList ++ s ++ '!' :: (g ++ ">".toList)) (3 + s.length + 1)
      (3 + s.length + (g.length + 1)) = g := by
    have := substr_mid ("<c:".toList ++ s ++ ['!']) g ">".toList
    have e2 : "<c:".toList ++ s ++ ['!'] ++ g ++ ">".toList
        = "<c:".toList ++ s ++ '!' :: (g ++ ">".toList) := by simp
    rw [e2] at this
    have l : ("<c:".toList ++ s ++ ['!']).length = 3 + s.length + 1 := by
      simp only [List.length_append, List.length_singleton]; rfl
    rw [l] at this
    have a : 3 + s.length + (g.length + 1) = 3 + s.length + 1 + g.length := by omega
    rw [a]; exact this
  rw [parseLeave, h0, e]
  simp only [h1, h2, h3, h5, h6, h7, if_true, Option.map_some', Option.some_bind,
    Bool.false_eq_true, if_false]

/-! ## The registry after `playerMessage` -/

/-- On the two lobby channels `playerMessage` never changes the registry. -/
theorem playerMessage_lobby (env : Env) (r : Registry) (nick channel msg : Str)
    (h : channel = STAR_CHAN ∨ channel = TET_CHAN) :
    (playerMessage env r nick channel msg).1 = r := by
  unfold playerMessage
  split
  · rfl
  · split
    · split
      · rfl
      · cases hs : strchr (List.drop 7 msg) '*' <;> simp only [hs]
    · rcases h with h | h <;> contradiction

/-- On a per-match channel the registry after `playerMessage` is determined by what the
text parses to. -/
theorem playerMessage_reg (env : Env) (r : Registry) (nick channel msg : Str)
    (h1 : channel ≠ STAR_CHAN) (h2 : channel ≠ TET_CHAN) :
    (playerMessage env r nick channel msg).1 =
      match parseJoin msg with
      | some (creator, gameId) =>
        if creator = nick then
          { r with wwpGames :=
              r.wwpGames.insert gameId ⟨gameId, creator, channel.tail, [creator]⟩ }
        else
          match r.wwpGames.lookup gameId with
          | some g =>
            { r with wwpGames :=
                r.wwpGames.insert gameId { g with players := g.players ++ [nick] } }
          | none => r
      | none =>
        match parseLeave msg with
        | some (creator, gameId) =>
          if creator = nick then { r with wwpGames := r.wwpGames.erase gameId }
          else
            match r.wwpGames.lookup gameId with
            | some g =>
              { r with wwpGames :=
                  r.wwpGames.insert gameId { g with players := eraseFirst nick g.players } }
            | none => r
        | none => r := by
  unfold playerMessage parseJoin parseLeave
  simp only [h1, h2, if_false]
  cases hr : strncmpEq "<r:gamename>".toList msg 12
  · simp only [Bool.false_eq_true, if_false]
    cases hc : strncmpEq "<c:".toList msg 3
    · simp only [Bool.false_eq_true, if_false]
    · simp only [if_true]
      cases hb : strchr msg '!' with
      | none => simp only [Option.none_bind]
      | some bang =>
        simp only [Option.some_bind]
        cases he : strchr (List.drop bang msg) '>' with
        | none => simp only [Option.map_none']
        | some e =>
          simp only [Option.map_some']
          split
          · rfl
          · cases Finmap.lookup (substr msg (bang + 1) (bang + e)) r.wwpGames <;> rfl
  · simp only [if_true]
    cases hb : strchr msg '!' with
    | none => simp only [Option.map_none']
    | some bang =>
      simp only [Option.map_some']
      split
      · rfl
      · cases Finmap.lookup (List.drop (bang + 1) msg) r.wwpGames <;> rfl

/-- C1: on a per-match channel `C`, the create token `<r:gamename>S!G` sent by `S` (no `!` in
`S`) leaves under key `G` the session with gameId `G`, creator `S`, channel `C` without its
first character and participants `[S]`; the same text sent next by `T ≠ S` makes the
participants `[S, T]`, creator and channel unchanged. -/
theorem create_then_join (env : Env) (r : Registry) (C S T G : Str)
    (hC1 : C ≠ STAR_CHAN) (hC2 : C ≠ TET_CHAN) (hS : '!' ∉ S) (hT : T ≠ S) :
    (playerMessage env r S C ("<r:gamename>".toList ++ S ++ "!".toList ++ G)).1.wwpGames.lookup G
        = some { gameId := G, creator := S, channel := C.tail, players := [S] }
      ∧ (playerMessage env
            (playerMessage env r S C ("<r:gamename>".toList ++ S ++ "!".toList ++ G)).1
            T C ("<r:gamename>".toList ++ S ++ "!".toList ++ G)).1.wwpGames.lookup G
        = some { gameId := G, creator := S, channel := C.tail, players := [S, T] } := by
  have hp := parseJoin_joinToken S G hS
  have e1 := playerMessage_reg env r S C (joinToken S G) hC1 hC2
  rw [hp] at e1
  simp only [if_true] at e1
  have l1 : (playerMessage env r S C (joinToken S G)).1.wwpGames.lookup G
      = some { gameId := G, creator := S, channel := C.tail, players := [S] } := by
    rw [e1]; exact Finmap.lookup_insert _
  have e2 := playerMessage_reg env (playerMessage env r S C (joinToken S G)).1 T C
    (joinToken S G) hC1 hC2
  rw [hp] at e2
  simp only [if_neg (Ne.symm hT), l1] at e2
  refine ⟨l1, ?_⟩
  show (playerMessage env (playerMessage env r S C (joinToken S G)).1 T C
    (joinToken S G)).1.wwpGames.lookup G = _
  rw [e2]
  simp only [Finmap.lookup_insert, List.singleton_append]

theorem create_then_join_witness :
    (playerMessage Env.quiet Registry.empty "alice".toList "#Aerial".toList
        ("<r:gamename>".toList ++ "alice".toList ++ "!".toList
          ++ "match42".toList)).1.wwpGames.lookup "match42".toList
        = some { gameId := "match42".toList, creator := "alice".toList,
                 channel := "Aerial".toList, players := ["alice".toList] }
      ∧ (playerMessage Env.quiet
            (playerMessage Env.quiet Registry.empty "alice".toList "#Aerial".toList
              ("<r:gamename>".toList ++ "alice".toList ++ "!".toList ++ "match42".toList)).1
            "bob".toList "#Aerial".toList
            ("<r:gamename>".toList ++ "alice".toList ++ "!".toList
              ++ "match42".toList)).1.wwpGames.lookup "match42".toList
        = some { gameId := "match42".toList, creator := "alice".toList,
                 channel := "Aerial".toList,
                 players := ["alice".toList, "bob".toList] } :=
  create_then_join Env.quiet Registry.empty "#Aerial".toList "alice".toList "bob".toList
    "match42".toList (by decide) (by decide) (by decide) (by decide)

/-- C2: on a per-match channel the leave token `<c:S!G>` sent by `S` (no `!` in `S`, no `>`
in `G`) leaves no session under key `G`, and the join token `<r:gamename>S!G` handled next
from any `T ≠ S` leaves the whole registry unchanged; in general a join token whose
identifier is not a key of the session map changes nothing. -/
theorem leave_then_join_ignored (env : Env) (r : Registry) (C C2 S T G : Str)
    (hC1 : C ≠ STAR_CHAN) (hC2 : C ≠ TET_CHAN) (hS : '!' ∉ S) (hG : '>' ∉ G) (hT : T ≠ S) :
    (playerMessage env r S C
        ("<c:".toList ++ S ++ "!".toList ++ G ++ ">".toList)).1.wwpGames.lookup G = none
      ∧ (playerMessage env
            (playerMessage env r S C ("<c:".toList ++ S ++ "!".toList ++ G ++ ">".toList)).1
            T C2 ("<r:gamename>".toList ++ S ++ "!".toList ++ G)).1
          = (playerMessage env r S C ("<c:".toList ++ S ++ "!".toList ++ G ++ ">".toList)).1
      ∧ ∀ (r0 : Registry) (nick ch creator g : Str), '!' ∉ creator → nick ≠ creator →
          r0.wwpGames.lookup g = none →
          (playerMessage env r0 nick ch
            ("<r:gamename>".toList ++ creator ++ "!".toList ++ g)).1 = r0 := by
  have gen : ∀ (r0 : Registry) (nick ch creator g : Str), '!' ∉ creator → nick ≠ creator →
      r0.wwpGames.lookup g = none →
      (playerMessage env r0 nick ch (joinToken creator g)).1 = r0 := by
    intro r0 nick ch creator g hc hn hl
    by_cases h : ch = STAR_CHAN ∨ ch = TET_CHAN
    · exact playerMessage_lobby env r0 nick ch _ h
    · rw [not_or] at h
      have e := playerMessage_reg env r0 nick ch (joinToken creator g) h.1 h.2
      rw [parseJoin_joinToken creator g hc] at e
      simp only [if_neg (Ne.symm hn), hl] at e
      exact e
  have e1 := playerMessage_reg env r S C (leaveToken S G) hC1 hC2
  rw [parseJoin_leaveToken, parseLeave_leaveToken S G hS hG] at e1
  simp only [if_true] at e1
  have l1 : (playerMessage env r S C (leaveToken S G)).1.wwpGames.lookup G = none := by
    rw [e1]; exact Finmap.lookup_erase _ _
  exact ⟨l1, gen _ T C2 S G hS hT l1, gen⟩

theorem leave_then_join_ignored_witness :
    (playerMessage Env.quiet
        (playerMessage Env.quiet Registry.empty "alice".toList "#Aerial".toList
          (joinToken "alice".toList "match42".toList)).1
        "alice".toList "#Aerial".toList
        ("<c:".toList ++ "alice".toList ++ "!".toList ++ "match42".toList
          ++ ">".toList)).1.wwpGames.lookup "match42".toList = none :=
  (leave_then_join_ignored Env.quiet
    (playerMessage Env.quiet Registry.empty "alice".toList "#Aerial".toList
      (joinToken "alice".toList "match42".toList)).1
    "#Aerial".toList "#Aerial".toList "alice".toList "bob".toList "match42".toList
    (by decide) (by decide) (by decide) (by decide) (by decide)).1

theorem playerJoined_wwpGames (env : Env) (r : Registry) (nick channel : Str) :
    (playerJoined env r nick channel).1.wwpGames = r.wwpGames := by
  unfold playerJoined
  split
  · rfl
  · split <;> rfl

theorem playerParted_wwpGames (r : Registry) (nick : Str) (channel : Option Str) :
    (playerParted r nick channel).wwpGames = r.wwpGames := by
  unfold playerParted
  dsimp only
  split <;> split <;> rfl

theorem mem_of_head? {a : Str} {l : List Str} (h : l.head? = some a) : a ∈ l := by
  cases l with
  | nil => simp at h
  | cons x xs => simp at h; simp [h]

theorem head?_eraseFirst (nick c : Str) (ps : List Str) (h : ps.head? = some c)
    (hc : c ≠ nick) : (eraseFirst nick ps).head? = some c := by
  cases ps with
  | nil => simp at h
  | cons x xs =>
    simp only [List.head?_cons, Option.some.injEq] at h
    subst h
    simp [eraseFirst, hc]

theorem head?_append_of_head? (c : Str) (ps qs : List Str) (h : ps.head? = some c) :
    (ps ++ qs).head? = some c := by
  cases ps with
  | nil => simp at h
  | cons x xs => simpa using h

/-- One call that is not a misaddressed leave keeps every creator first. -/
theorem creatorFirst_step (env : Env) (r : Registry) (c : Call) (hr : creatorFirst r)
    (hc : misaddressedLeave r c = false) : creatorFirst (applyCall env r c) := by
  have key : ∀ r2 : Registry, (∀ G g, r2.wwpGames.lookup G = some g →
      g.players.head? = some g.creator) → creatorFirst r2 :=
    fun r2 h G g hg => ⟨mem_of_head? (h G g hg), h G g hg⟩
  have hr2 : ∀ G g, r.wwpGames.lookup G = some g → g.players.head? = some g.creator :=
    fun G g hg => (hr G g hg).2
  cases c with
  | joined nick channel =>
    intro G g hg
    simp only [applyCall, playerJoined_wwpGames] at hg
    exact hr G g hg
  | parted nick channel =>
    intro G g hg
    simp only [applyCall, playerParted_wwpGames] at hg
    exact hr G g hg
  | reset =>
    intro G g hg
    simp [applyCall, resetStats] at hg
  | message nick channel msg =>
    by_cases hl : channel = STAR_CHAN ∨ channel = TET_CHAN
    · simp only [applyCall, playerMessage_lobby env r nick channel msg hl]
      exact hr
    · rw [not_or] at hl
      apply key
      intro G g hg
      simp only [applyCall, playerMessage_reg env r nick channel msg hl.1 hl.2] at hg
      simp only [misaddressedLeave, hl.1, hl.2, ne_eq, not_false_eq_true, decide_True,
        Bool.true_and] at hc
      cases hj : parseJoin msg with
      | some cg =>
        obtain ⟨creator, gameId⟩ := cg
        simp only [hj] at hg
        by_cases hcn : creator = nick
        · simp only [hcn, if_true] at hg
          by_cases hG : G = gameId
          · subst hG
            rw [Finmap.lookup_insert] at hg
            cases hg; rfl
          · rw [Finmap.lookup_insert_of_ne _ hG] at hg
            exact hr2 G g hg
        · simp only [hcn, if_false] at hg
          cases hlk : r.wwpGames.lookup gameId with
          | none => simp only [hlk] at hg; exact hr2 G g hg
          | some g0 =>
            simp only [hlk] at hg
            by_cases hG : G = gameId
            · subst hG
              rw [Finmap.lookup_insert] at hg
              cases hg
              exact head?_append_of_head? _ _ _ (hr2 G g0 hlk)
            · rw [Finmap.lookup_insert_of_ne _ hG] at hg
              exact hr2 G g hg
      | none =>
        simp only [hj] at hg
        cases hp : parseLeave msg with
        | none => simp only [hp] at hg; exact hr2 G g hg
        | some cg =>
          obtain ⟨creator, gameId⟩ := cg
          simp only [hp] at hg hc
          by_cases hcn : creator = nick
          · simp only [hcn, if_true] at hg
            by_cases hG : G = gameId
            · subst hG
              rw [Finmap.lookup_erase] at hg
              cases hg
            · rw [Finmap.lookup_erase_ne hG] at hg
              exact hr2 G g hg
          · simp only [hcn, if_false] at hg
            cases hlk : r.wwpGames.lookup gameId with
            | none => simp only [hlk] at hg; exact hr2 G g hg
            | some g0 =>
              simp only [hlk] at hg hc
              simp only [hcn, not_false_eq_true, decide_True, Bool.true_and,
                decide_eq_false_iff_not] at hc
              by_cases hG : G = gameId
              · subst hG
                rw [Finmap.lookup_insert] at hg
                cases hg
                exact head?_eraseFirst nick g0.creator g0.players (hr2 G g0 hlk) hc
              · rw [Finmap.lookup_insert_of_ne _ hG] at hg
                exact hr2 G g hg

theorem creatorFirst_run (env : Env) (cs : List Call) :
    ∀ r : Registry, creatorFirst r → wellAddressed env r cs = true →
      creatorFirst (runCalls env r cs) := by
  induction cs with
  | nil => intro r hr _; exact hr
  | cons c cs ih =>
    intro r hr hw
    simp only [wellAddressed, Bool.and_eq_true, Bool.not_eq_true'] at hw
    exact ih _ (creatorFirst_step env r c hr hw.1) hw.2

theorem creatorFirst_empty : creatorFirst Registry.empty := by
  intro G g hg
  simp [Registry.empty] at hg

/-- C4, as the code has it: in every registry state reached from the empty registry by a
sequence of join, part, quit and chat-message calls and resets in which no leave token naming
a creator other than its sender is sent by the stored creator of the session it identifies,
every session has its stored creator in its participant list, as the first element. -/
theorem creator_first_reachable (env : Env) (cs : List Call)
    (hw : wellAddressed env Registry.empty cs = true) :
    creatorFirst (runCalls env Registry.empty cs) :=
  creatorFirst_run env cs Registry.empty creatorFirst_empty hw

theorem creator_first_reachable_witness :
    creatorFirst (runCalls Env.quiet Registry.empty
      [ .joined "alice".toList "#Aerial".toList,
        .message "alice".toList "#Aerial".toList (joinToken "alice".toList "m".toList),
        .message "bob".toList "#Aerial".toList (joinToken "alice".toList "m".toList),
        .message "bob".toList "#Aerial".toList (leaveToken "alice".toList "m".toList),
        .parted "alice".toList none ]) :=
  creator_first_reachable Env.quiet _ (by decide)

/-- C4, as the claim states it, fails: `alice` creates session `m`, then sends the leave
token `<c:bob!m>`; the session stays, with creator `alice` and no participant. -/
theorem creator_first_counterexample :
    (runCalls Env.quiet Registry.empty
        [ .message "alice".toList "#Aerial".toList (joinToken "alice".toList "m".toList),
          .message "alice".toList "#Aerial".toList
            (leaveToken "bob".toList "m".toList) ]).wwpGames.lookup "m".toList
        = some { gameId := "m".toList, creator := "alice".toList,
                 channel := "Aerial".toList, players := [] }
      ∧ ¬ creatorFirst (runCalls Env.quiet Registry.empty
        [ .message "alice".toList "#Aerial".toList (joinToken "alice".toList "m".toList),
          .message "alice".toList "#Aerial".toList
            (leaveToken "bob".toList "m".toList) ]) := by
  have h : (runCalls Env.quiet Registry.empty
        [ .message "alice".toList "#Aerial".toList (joinToken "alice".toList "m".toList),
          .message "alice".toList "#Aerial".toList
            (leaveToken "bob".toList "m".toList) ]).wwpGames.lookup "m".toList
        = some { gameId := "m".toList, creator := "alice".toList,
                 channel := "Aerial".toList, players := [] } := by decide
  refine ⟨h, fun hc => ?_⟩
  have := (hc _ _ h).1
  simp at this

/-- C5, as the code has it: when session `G` exists with stored creator `S`, every single
join, part, quit or chat-message call other than a leave token for `G` whose named creator is
its sender and a create token for `G` sent by a nickname other than `S` leaves a session
under key `G` with stored creator `S`. -/
theorem session_survives (env : Env) (r : Registry) (G : Str) (g : Game) (c : Call)
    (hg : r.wwpGames.lookup G = some g) (hc : removesOrReplaces G g.creator c = false) :
    ∃ g2, (applyCall env r c).wwpGames.lookup G = some g2 ∧ g2.creator = g.creator := by
  cases c with
  | joined nick channel =>
    exact ⟨g, by simp only [applyCall, playerJoined_wwpGames]; exact hg, rfl⟩
  | parted nick channel =>
    exact ⟨g, by simp only [applyCall, playerParted_wwpGames]; exact hg, rfl⟩
  | reset => simp [removesOrReplaces] at hc
  | message nick channel msg =>
    by_cases hl : channel = STAR_CHAN ∨ channel = TET_CHAN
    · exact ⟨g, by simp only [applyCall, playerMessage_lobby env r nick channel msg hl]; exact hg,
        rfl⟩
    · rw [not_or] at hl
      simp only [removesOrReplaces, hl.1, hl.2, ne_eq, not_false_eq_true, decide_True,
        Bool.true_and, Bool.or_eq_false_iff, Bool.and_eq_false_imp, decide_eq_true_eq,
        decide_eq_false_iff_not, not_not] at hc
      simp only [applyCall, playerMessage_reg env r nick channel msg hl.1 hl.2]
      cases hj : parseJoin msg with
      | some cg =>
        obtain ⟨creator, gameId⟩ := cg
        simp only []
        by_cases hcn : creator = nick
        · simp only [hcn, if_true]
          by_cases hG : G = gameId
          · have hS : nick = g.creator := hc.1 (by rw [hj, hcn, hG])
            subst hG
            exact ⟨_, Finmap.lookup_insert _, hS⟩
          · exact ⟨g, by rw [Finmap.lookup_insert_of_ne _ hG]; exact hg, rfl⟩
        · simp only [hcn, if_false]
          cases hlk : r.wwpGames.lookup gameId with
          | none => exact ⟨g, hg, rfl⟩
          | some g0 =>
            simp only []
            by_cases hG : G = gameId
            · subst hG
              rw [hg] at hlk
              cases hlk
              exact ⟨_, Finmap.lookup_insert _, rfl⟩
            · exact ⟨g, by rw [Finmap.lookup_insert_of_ne _ hG]; exact hg, rfl⟩
      | none =>
        simp only []
        cases hp : parseLeave msg with
        | none => exact ⟨g, hg, rfl⟩
        | some cg =>
          obtain ⟨creator, gameId⟩ := cg
          simp only []
          by_cases hcn : creator = nick
          · simp only [hcn, if_true]
            have hG : G ≠ gameId := by
              intro e
              apply hc.2
              rw [hp, hcn, e]
            exact ⟨g, by rw [Finmap.lookup_erase_ne hG]; exact hg, rfl⟩
          · simp only [hcn, if_false]
            cases hlk : r.wwpGames.lookup gameId with
            | none => exact ⟨g, hg, rfl⟩
            | some g0 =>
              simp only []
              by_cases hG : G = gameId
              · subst hG
                rw [hg] at hlk
                cases hlk
                exact ⟨_, Finmap.lookup_insert _, rfl⟩
              · exact ⟨g, by rw [Finmap.lookup_insert_of_ne _ hG]; exact hg, rfl⟩

theorem session_survives_witness :
    ∃ g2, (applyCall Env.quiet Registry.sample
        (.message "alice".toList "#Aerial".toList
          (leaveToken "bob".toList "m".toList))).wwpGames.lookup "m".toList = some g2
      ∧ g2.creator = Game.sample.creator :=
  session_survives Env.quiet Registry.sample "m".toList Game.sample
    (.message "alice".toList "#Aerial".toList (leaveToken "bob".toList "m".toList))
    (by decide) (by decide)

/-- C5, as the claim states it, fails: session `m` has stored creator `alice`; the leave
token `<c:bob!m>` sent by `bob`, which is not a leave token sent by `alice`, deletes it. -/
theorem session_survives_counterexample :
    Registry.sample.wwpGames.lookup "m".toList = some Game.sample
      ∧ Game.sample.creator = "alice".toList
      ∧ (applyCall Env.quiet Registry.sample
          (.message "bob".toList "#Aerial".toList
            (leaveToken "bob".toList "m".toList))).wwpGames.lookup "m".toList = none := by
  decide

/-! ## Presence: part and quit -/

/-- C7: after a quit of `N` (`playerParted` without channel) `N` is in neither lobby set and
is no key of the per-match map; after a part of `N` on `C` the lobby set of channel `C` has
lost `N`, the other lobby set is unchanged, and `N` is no key of the per-match map whatever
`C` is; in both cases the entries of every other nickname and the session map are
unchanged. -/
theorem parted_frame (r : Registry) (N C : Str) :
    (N ∉ (playerParted r N none).starlancerPlayers
        ∧ N ∉ (playerParted r N none).tetrisPlayers
        ∧ (playerParted r N none).wwpPlayers.lookup N = none)
      ∧ ((C = STAR_CHAN → N ∉ (playerParted r N (some C)).starlancerPlayers)
        ∧ (C ≠ STAR_CHAN →
            (playerParted r N (some C)).starlancerPlayers = r.starlancerPlayers)
        ∧ (C = TET_CHAN → N ∉ (playerParted r N (some C)).tetrisPlayers)
        ∧ (C ≠ TET_CHAN → (playerParted r N (some C)).tetrisPlayers = r.tetrisPlayers)
        ∧ (playerParted r N (some C)).wwpPlayers.lookup N = none)
      ∧ ∀ ch : Option Str,
          (playerParted r N ch).wwpGames = r.wwpGames
          ∧ ∀ M, M ≠ N →
            (M ∈ (playerParted r N ch).starlancerPlayers ↔ M ∈ r.starlancerPlayers)
            ∧ (M ∈ (playerParted r N ch).tetrisPlayers ↔ M ∈ r.tetrisPlayers)
            ∧ (playerParted r N ch).wwpPlayers.lookup M = r.wwpPlayers.lookup M := by
  have hst : STAR_CHAN ≠ TET_CHAN := by decide
  refine ⟨?_, ?_, ?_⟩
  · simp [playerParted]
  · refine ⟨?_, ?_, ?_, ?_, ?_⟩
    · intro h; subst h; simp [playerParted, hst]
    · intro h
      by_cases h2 : C = TET_CHAN
      · subst h2; simp [playerParted, hst.symm]
      · simp [playerParted, h, h2]
    · intro h; subst h; simp [playerParted, hst.symm]
    · intro h
      by_cases h2 : C = STAR_CHAN
      · subst h2; simp [playerParted, hst]
      · simp [playerParted, h, h2]
    · by_cases h1 : C = STAR_CHAN <;> by_cases h2 : C = TET_CHAN <;>
        simp [playerParted, h1, h2]
  · intro ch
    refine ⟨playerParted_wwpGames r N ch, ?_⟩
    intro M hM
    unfold playerParted
    dsimp only
    refine ⟨?_, ?_, ?_⟩
    · split <;> split <;> simp [Finset.mem_erase, hM]
    · split <;> split <;> simp [Finset.mem_erase, hM]
    · split <;> split <;> simp [Finmap.lookup_erase_ne hM]

/-! ## Reset -/

/-- C9: whatever the registry holds, after `resetStats` the StarLancer set, the Tetris set,
the per-match nickname map and the session map are empty, and they are still empty after the
connect event of the next connection has been handled. -/
theorem reset_then_connect_empty (env : Env) (b : Bot) (origin : Option Str) :
    (b.resetStats.reg.starlancerPlayers = ∅ ∧ b.resetStats.reg.tetrisPlayers = ∅
        ∧ b.resetStats.reg.wwpPlayers = ∅ ∧ b.resetStats.reg.wwpGames = ∅)
      ∧ ((event_connect env b.resetStats origin).1.reg.starlancerPlayers = ∅
        ∧ (event_connect env b.resetStats origin).1.reg.tetrisPlayers = ∅
        ∧ (event_connect env b.resetStats origin).1.reg.wwpPlayers = ∅
        ∧ (event_connect env b.resetStats origin).1.reg.wwpGames = ∅) :=
  ⟨⟨rfl, rfl, rfl, rfl⟩, ⟨rfl, rfl, rfl, rfl⟩⟩

/-! ## Presence over a sequence of events -/

/-- A property that an event either sets, clears or leaves alone holds after a sequence of
events exactly when some event set it and no later one cleared it, or it held at the start
and no event cleared it. -/
theorem last_set_wins {σ α : Type} (step : σ → α → σ) (P : σ → Prop) (isSet isClr : α → Prop)
    (hstep : ∀ s e, P (step s e) ↔ isSet e ∨ (P s ∧ ¬ isClr e)) :
    ∀ (es : List α) (s : σ), P (es.foldl step s) ↔
      (∃ pre e post, es = pre ++ e :: post ∧ isSet e ∧ ∀ x ∈ post, ¬ isClr x)
        ∨ (P s ∧ ∀ x ∈ es, ¬ isClr x) := by
  intro es
  induction es with
  | nil =>
    intro s
    simp
  | cons a es ih =>
    intro s
    rw [List.foldl_cons, ih, hstep]
    constructor
    · rintro (⟨pre, e, post, h1, h2, h3⟩ | ⟨h1 | ⟨h1, h2⟩, h3⟩)
      · exact Or.inl ⟨a :: pre, e, post, by simp [h1], h2, h3⟩
      · exact Or.inl ⟨[], a, es, rfl, h1, h3⟩
      · refine Or.inr ⟨h1, ?_⟩
        intro x hx
        rcases List.mem_cons.1 hx with hx | hx
        · rw [hx]; exact h2
        · exact h3 x hx
    · rintro (⟨pre, e, post, h1, h2, h3⟩ | ⟨h1, h2⟩)
      · cases pre with
        | nil =>
          simp only [List.nil_append, List.cons.injEq] at h1
          obtain ⟨rfl, rfl⟩ := h1
          exact Or.inr ⟨Or.inl h2, h3⟩
        | cons p pre =>
          simp only [List.cons_append, List.cons.injEq] at h1
          exact Or.inl ⟨pre, e, post, h1.2, h2, h3⟩
      · exact Or.inr ⟨Or.inr ⟨h1, h2 a (List.mem_cons_self _ _)⟩,
          fun x hx => h2 x (List.mem_cons_of_mem _ hx)⟩

/-- The registry after one dispatched event. -/
theorem dispatch_reg (env : Env) (b : Bot) (e : Event) :
    (dispatch env b e).1.reg =
      match e with
      | .join (some nick) (c :: _) =>
        if BOT_NAME ≠ nick then (playerJoined env b.reg nick c).1 else b.reg
      | .part (some nick) (c :: _) => playerParted b.reg nick (some c)
      | .channel (some nick) (c :: m :: _) => (playerMessage env b.reg nick c m).1
      | .quit nick _ => playerParted b.reg nick none
      | _ => b.reg := by
  cases e with
  | connect origin params => rfl
  | join origin params =>
    cases origin with
    | none => rfl
    | some nick =>
      cases params with
      | nil => rfl
      | cons c ps =>
        simp only [dispatch, event_join, List.length_cons, Nat.add_one_ne_zero, if_false]
        by_cases hb : BOT_NAME = nick
        · simp only [hb, ne_eq, not_true_eq_false, if_false]
          split <;> rfl
        · simp only [ne_eq, hb, not_false_eq_true, if_true]
          rfl
  | part origin params =>
    cases origin with
    | none => rfl
    | some nick =>
      cases params with
      | nil => rfl
      | cons c ps => rfl
  | channel origin params =>
    cases origin with
    | none => rfl
    | some nick =>
      match params with
      | [] => rfl
      | [_] => rfl
      | c :: m :: ps => rfl
  | numeric event origin params =>
    simp only [dispatch, event_numeric]
    split <;> rfl
  | topic origin params => rfl
  | quit origin params => rfl

theorem playerMessage_players (env : Env) (r : Registry) (nick channel msg : Str) :
    (playerMessage env r nick channel msg).1.starlancerPlayers = r.starlancerPlayers
      ∧ (playerMessage env r nick channel msg).1.tetrisPlayers = r.tetrisPlayers
      ∧ (playerMessage env r nick channel msg).1.wwpPlayers = r.wwpPlayers := by
  by_cases hl : channel = STAR_CHAN ∨ channel = TET_CHAN
  · rw [playerMessage_lobby env r nick channel msg hl]
    exact ⟨rfl, rfl, rfl⟩
  · rw [not_or] at hl
    rw [playerMessage_reg env r nick channel msg hl.1 hl.2]
    cases parseJoin msg with
    | some cg =>
      obtain ⟨creator, gameId⟩ := cg
      simp only []
      split
      · exact ⟨rfl, rfl, rfl⟩
      · cases r.wwpGames.lookup gameId <;> exact ⟨rfl, rfl, rfl⟩
    | none =>
      simp only []
      cases parseLeave msg with
      | none => exact ⟨rfl, rfl, rfl⟩
      | some cg =>
        obtain ⟨creator, gameId⟩ := cg
        simp only []
        split
        · exact ⟨rfl, rfl, rfl⟩
        · cases r.wwpGames.lookup gameId <;> exact ⟨rfl, rfl, rfl⟩

theorem playerJoined_star (env : Env) (r : Registry) (nick c N : Str) :
    N ∈ (playerJoined env r nick c).1.starlancerPlayers
      ↔ (nick = N ∧ c = STAR_CHAN) ∨ N ∈ r.starlancerPlayers := by
  unfold playerJoined
  by_cases h1 : c = STAR_CHAN
  · simp only [h1, if_true, Finset.mem_insert, and_true]
    exact or_congr_left eq_comm
  · simp only [h1, if_false, and_false, false_or]
    split <;> rfl

theorem playerJoined_tetris (env : Env) (r : Registry) (nick c N : Str) :
    N ∈ (playerJoined env r nick c).1.tetrisPlayers
      ↔ (nick = N ∧ c = TET_CHAN) ∨ N ∈ r.tetrisPlayers := by
  unfold playerJoined
  by_cases h2 : c = TET_CHAN
  · subst h2
    have h1 : TET_CHAN ≠ STAR_CHAN := by decide
    simp only [h1, if_false, if_true, Finset.mem_insert, and_true]
    exact or_congr_left eq_comm
  · by_cases h1 : c = STAR_CHAN
    · subst h1
      have hst : STAR_CHAN ≠ TET_CHAN := by decide
      simp only [if_true, hst, and_false, false_or]
    · simp only [h1, if_false, h2, and_false, false_or]

theorem playerParted_star (r : Registry) (nick N : Str) (ch : Option Str) :
    N ∈ (playerParted r nick ch).starlancerPlayers
      ↔ N ∈ r.starlancerPlayers ∧ ¬ (nick = N ∧ (ch = none ∨ ch = some STAR_CHAN)) := by
  unfold playerParted
  dsimp only
  by_cases h1 : ch = none ∨ ch = some STAR_CHAN
  · simp only [h1, if_true, and_true]
    split <;> simp only [Finset.mem_erase] <;> constructor
    · rintro ⟨a, b⟩; exact ⟨b, fun e => a e.symm⟩
    · rintro ⟨a, b⟩; exact ⟨fun e => b e.symm, a⟩
    · rintro ⟨a, b⟩; exact ⟨b, fun e => a e.symm⟩
    · rintro ⟨a, b⟩; exact ⟨fun e => b e.symm, a⟩
  · simp only [h1, if_false, and_false, not_false_eq_true, and_true]
    split <;> rfl

theorem playerParted_tetris (r : Registry) (nick N : Str) (ch : Option Str) :
    N ∈ (playerParted r nick ch).tetrisPlayers
      ↔ N ∈ r.tetrisPlayers ∧ ¬ (nick = N ∧ (ch = none ∨ ch = some TET_CHAN)) := by
  unfold playerParted
  dsimp only
  by_cases h2 : ch = none ∨ ch = some TET_CHAN
  · simp only [h2, if_true, and_true]
    split <;> simp only [Finset.mem_erase] <;> constructor
    · rintro ⟨a, b⟩; exact ⟨b, fun e => a e.symm⟩
    · rintro ⟨a, b⟩; exact ⟨fun e => b e.symm, a⟩
    · rintro ⟨a, b⟩; exact ⟨b, fun e => a e.symm⟩
    · rintro ⟨a, b⟩; exact ⟨fun e => b e.symm, a⟩
  · simp only [h2, if_false, and_false, not_false_eq_true, and_true]
    split <;> rfl

theorem dispatch_star (env : Env) (b : Bot) (e : Event) (N : Str) (hN : N ≠ BOT_NAME) :
    N ∈ (dispatch env b e).1.reg.starlancerPlayers ↔
      (∃ ps, e = .join (some N) (STAR_CHAN :: ps))
        ∨ (N ∈ b.reg.starlancerPlayers
          ∧ ¬ ((∃ ps, e = .part (some N) (STAR_CHAN :: ps)) ∨ ∃ ps, e = .quit N ps)) := by
  rw [dispatch_reg]
  cases e with
  | connect origin params => simp
  | numeric event origin params => simp
  | topic origin params => simp
  | quit origin params =>
    simp only [playerParted_star]
    simp
  | join origin params =>
    cases origin with
    | none => simp
    | some nick =>
      cases params with
      | nil => simp
      | cons c ps =>
        simp only []
        by_cases hb : BOT_NAME = nick
        · have : nick ≠ N := fun h => hN (by rw [← h, hb])
          simp [hb, this]
        · simp only [ne_eq, hb, not_false_eq_true, if_true, playerJoined_star]
          simp
  | part origin params =>
    cases origin with
    | none => simp
    | some nick =>
      cases params with
      | nil => simp
      | cons c ps =>
        simp only [playerParted_star]
        simp
  | channel origin params =>
    cases origin with
    | none => simp
    | some nick =>
      match params with
      | [] => simp
      | [_] => simp
      | c :: m :: ps => simp [(playerMessage_players env b.reg nick c m).1]

theorem dispatch_tetris (env : Env) (b : Bot) (e : Event) (N : Str) (hN : N ≠ BOT_NAME) :
    N ∈ (dispatch env b e).1.reg.tetrisPlayers ↔
      (∃ ps, e = .join (some N) (TET_CHAN :: ps))
        ∨ (N ∈ b.reg.tetrisPlayers
          ∧ ¬ ((∃ ps, e = .part (some N) (TET_CHAN :: ps)) ∨ ∃ ps, e = .quit N ps)) := by
  rw [dispatch_reg]
  cases e with
  | connect origin params => simp
  | numeric event origin params => simp
  | topic origin params => simp
  | quit origin params =>
    simp only [playerParted_tetris]
    simp
  | join origin params =>
    cases origin with
    | none => simp
    | some nick =>
      cases params with
      | nil => simp
      | cons c ps =>
        simp only []
        by_cases hb : BOT_NAME = nick
        · have : nick ≠ N := fun h => hN (by rw [← h, hb])
          simp [hb, this]
        · simp only [ne_eq, hb, not_false_eq_true, if_true, playerJoined_tetris]
          simp
  | part origin params =>
    cases origin with
    | none => simp
    | some nick =>
      cases params with
      | nil => simp
      | cons c ps =>
        simp only [playerParted_tetris]
        simp
  | channel origin params =>
    cases origin with
    | none => simp
    | some nick =>
      match params with
      | [] => simp
      | [_] => simp
      | c :: m :: ps => simp [(playerMessage_players env b.reg nick c m).2.1]

/-- C6: for both lobby games and every sequence of events handled from the empty registry,
a nickname `N` other than the bot is in the lobby set afterwards exactly when the sequence
contains a join of `N` on the lobby channel that is followed neither by a part of `N` from
that channel nor by a quit of `N`. -/
theorem lobby_membership (env : Env) (b : Bot) (es : List Event) (N : Str)
    (hb : b.reg = Registry.empty) (hN : N ≠ BOT_NAME) :
    (N ∈ (run env b es).reg.starlancerPlayers ↔
        ∃ pre ps post, es = pre ++ Event.join (some N) (STAR_CHAN :: ps) :: post
          ∧ ∀ x ∈ post, (∀ qs, x ≠ Event.part (some N) (STAR_CHAN :: qs))
              ∧ ∀ qs, x ≠ Event.quit N qs)
      ∧ (N ∈ (run env b es).reg.tetrisPlayers ↔
        ∃ pre ps post, es = pre ++ Event.join (some N) (TET_CHAN :: ps) :: post
          ∧ ∀ x ∈ post, (∀ qs, x ≠ Event.part (some N) (TET_CHAN :: qs))
              ∧ ∀ qs, x ≠ Event.quit N qs) := by
  have h1 := last_set_wins (fun s e => (dispatch env s e).1)
    (fun s => N ∈ s.reg.starlancerPlayers)
    (fun e => ∃ ps, e = Event.join (some N) (STAR_CHAN :: ps))
    (fun e => (∃ ps, e = Event.part (some N) (STAR_CHAN :: ps)) ∨ ∃ ps, e = Event.quit N ps)
    (fun s e => dispatch_star env s e N hN) es b
  have h2 := last_set_wins (fun s e => (dispatch env s e).1)
    (fun s => N ∈ s.reg.tetrisPlayers)
    (fun e => ∃ ps, e = Event.join (some N) (TET_CHAN :: ps))
    (fun e => (∃ ps, e = Event.part (some N) (TET_CHAN :: ps)) ∨ ∃ ps, e = Event.quit N ps)
    (fun s e => dispatch_tetris env s e N hN) es b
  have e1 : N ∉ b.reg.starlancerPlayers := by rw [hb]; simp [Registry.empty]
  have e2 : N ∉ b.reg.tetrisPlayers := by rw [hb]; simp [Registry.empty]
  simp only [e1, e2, false_and, or_false, not_or, not_exists] at h1 h2
  constructor
  · rw [run, h1]
    constructor
    · rintro ⟨pre, e, post, hes, ⟨ps, rfl⟩, hpost⟩
      exact ⟨pre, ps, post, hes, hpost⟩
    · rintro ⟨pre, ps, post, hes, hpost⟩
      exact ⟨pre, _, post, hes, ⟨ps, rfl⟩, hpost⟩
  · rw [run, h2]
    constructor
    · rintro ⟨pre, e, post, hes, ⟨ps, rfl⟩, hpost⟩
      exact ⟨pre, ps, post, hes, hpost⟩
    · rintro ⟨pre, ps, post, hes, hpost⟩
      exact ⟨pre, _, post, hes, ⟨ps, rfl⟩, hpost⟩

theorem lobby_membership_witness :
    "carol".toList ∈ (run Env.quiet Bot.init
        [ Event.join (some "carol".toList) [TET_CHAN],
          Event.join (some "carol".toList) [STAR_CHAN],
          Event.part (some "carol".toList) [TET_CHAN] ]).reg.starlancerPlayers
      ∧ "carol".toList ∉ (run Env.quiet Bot.init
        [ Event.join (some "carol".toList) [TET_CHAN],
          Event.join (some "carol".toList) [STAR_CHAN],
          Event.part (some "carol".toList) [TET_CHAN] ]).reg.tetrisPlayers := by
  have h := lobby_membership Env.quiet Bot.init
    [ Event.join (some "carol".toList) [TET_CHAN],
      Event.join (some "carol".toList) [STAR_CHAN],
      Event.part (some "carol".toList) [TET_CHAN] ] "carol".toList rfl (by decide)
  constructor
  · refine h.1.2 ⟨[Event.join (some "carol".toList) [TET_CHAN]], [],
      [Event.part (some "carol".toList) [TET_CHAN]], rfl, ?_⟩
    intro x hx
    rw [List.mem_singleton] at hx
    subst hx
    refine ⟨fun qs hq => ?_, fun qs hq => Event.noConfusion hq⟩
    injection hq with _ h2
    injection h2 with h3 _
    exact absurd h3 (by decide)
  · decide

/-! ## The per-match nickname map -/

/-- One registry call seen from the entry of `N` in the per-match map: a join of `N` on a
non-lobby channel `C` sets it to `C`; a join of `N` on another non-lobby channel, a part or
quit of `N` and the reset make it differ from `C`; anything else keeps it. -/
theorem applyCall_wwpPlayers (env : Env) (r : Registry) (c : Call) (N C : Str) :
    (applyCall env r c).wwpPlayers.lookup N = some C ↔
      (c = Call.joined N C ∧ C ≠ STAR_CHAN ∧ C ≠ TET_CHAN)
        ∨ (r.wwpPlayers.lookup N = some C
          ∧ ¬ ((∃ D, c = Call.joined N D ∧ D ≠ STAR_CHAN ∧ D ≠ TET_CHAN)
              ∨ (∃ ch, c = Call.parted N ch) ∨ c = Call.reset)) := by
  cases c with
  | reset => simp [applyCall, resetStats]
  | message nick channel msg =>
    simp [applyCall, (playerMessage_players env r nick channel msg).2.2]
  | parted nick ch =>
    have e : (playerParted r nick ch).wwpPlayers = r.wwpPlayers.erase nick := by
      unfold playerParted
      dsimp only
      split <;> split <;> rfl
    simp only [applyCall, e]
    by_cases h : N = nick
    · subst h
      simp
    · rw [Finmap.lookup_erase_ne h]
      have h2 : nick ≠ N := fun e => h e.symm
      simp [h2]
  | joined nick channel =>
    simp only [applyCall]
    unfold playerJoined
    by_cases h1 : channel = STAR_CHAN
    · subst h1
      simp only [if_true, Call.joined.injEq, reduceCtorEq, exists_false, or_false, false_or]
      constructor
      · intro h
        refine Or.inr ⟨h, ?_⟩
        rintro ⟨D, ⟨-, hD⟩, d1, -⟩
        exact d1 hD.symm
      · rintro (⟨⟨-, hC⟩, c1, -⟩ | ⟨h, -⟩)
        · exact absurd hC.symm c1
        · exact h
    · by_cases h2 : channel = TET_CHAN
      · subst h2
        simp only [h1, if_false, if_true, Call.joined.injEq, reduceCtorEq, exists_false,
          or_false, false_or]
        constructor
        · intro h
          refine Or.inr ⟨h, ?_⟩
          rintro ⟨D, ⟨-, hD⟩, -, d2⟩
          exact d2 hD.symm
        · rintro (⟨⟨-, hC⟩, -, c2⟩ | ⟨h, -⟩)
          · exact absurd hC.symm c2
          · exact h
      · simp only [h1, h2, if_false]
        by_cases h : N = nick
        · subst h
          rw [Finmap.lookup_insert]
          simp only [Option.some.injEq, Call.joined.injEq, true_and, reduceCtorEq, exists_false,
            or_false, not_exists, not_and, not_not]
          constructor
          · intro e; subst e; exact Or.inl ⟨rfl, h1, h2⟩
          · rintro (⟨e, -, -⟩ | ⟨-, hc⟩)
            · exact e
            · exact absurd (hc channel rfl h1) h2
        · rw [Finmap.lookup_insert_of_ne _ h]
          have h3 : nick ≠ N := fun e => h e.symm
          simp [h3]

/-- The per-match map at the level of the registry functions: after a sequence of
`playerJoined`, `playerParted` and `playerMessage` calls handled from the empty registry, the
map sends `N` to `C` exactly when the most recent call among the joins of `N` on non-lobby
channels and the parts and quits of `N` is a join of `N` on `C`; a join of `N` on a lobby
channel does not change the map. -/
theorem last_join_wins_calls (env : Env) (cs : List Call) (N C : Str)
    (hcs : ∀ c ∈ cs, c ≠ Call.reset) :
    ((runCalls env Registry.empty cs).wwpPlayers.lookup N = some C ↔
        ∃ pre post, cs = pre ++ Call.joined N C :: post ∧ C ≠ STAR_CHAN ∧ C ≠ TET_CHAN
          ∧ ∀ x ∈ post, (∀ D, x = Call.joined N D → D = STAR_CHAN ∨ D = TET_CHAN)
              ∧ ∀ ch, x ≠ Call.parted N ch)
      ∧ ∀ (r : Registry) (L : Str), L = STAR_CHAN ∨ L = TET_CHAN →
          (playerJoined env r N L).1.wwpPlayers = r.wwpPlayers := by
  constructor
  · have h := last_set_wins (applyCall env) (fun s => s.wwpPlayers.lookup N = some C)
      (fun c => c = Call.joined N C ∧ C ≠ STAR_CHAN ∧ C ≠ TET_CHAN)
      (fun c => (∃ D, c = Call.joined N D ∧ D ≠ STAR_CHAN ∧ D ≠ TET_CHAN)
        ∨ (∃ ch, c = Call.parted N ch) ∨ c = Call.reset)
      (fun s c => applyCall_wwpPlayers env s c N C) cs Registry.empty
    have e0 : ¬ (Registry.empty.wwpPlayers.lookup N = some C) := by simp [Registry.empty]
    simp only [e0, false_and, or_false] at h
    rw [runCalls, h]
    constructor
    · rintro ⟨pre, e, post, hes, ⟨rfl, h1, h2⟩, hpost⟩
      refine ⟨pre, post, hes, h1, h2, ?_⟩
      intro x hx
      have := hpost x hx
      rw [not_or, not_or] at this
      refine ⟨fun D hD => ?_, fun ch hch => this.2.1 ⟨ch, hch⟩⟩
      by_contra hc
      rw [not_or] at hc
      exact this.1 ⟨D, hD, hc.1, hc.2⟩
    · rintro ⟨pre, post, hes, h1, h2, hpost⟩
      refine ⟨pre, _, post, hes, ⟨rfl, h1, h2⟩, ?_⟩
      intro x hx
      rw [not_or, not_or]
      refine ⟨?_, ?_, ?_⟩
      · rintro ⟨D, hD, d1, d2⟩
        rcases (hpost x hx).1 D hD with d | d
        · exact d1 d
        · exact d2 d
      · rintro ⟨ch, hch⟩
        exact (hpost x hx).2 ch hch
      · apply hcs x
        rw [hes]
        exact List.mem_append_right _ (List.mem_cons_of_mem _ hx)
  · intro r L hL
    unfold playerJoined
    rcases hL with hL | hL
    · subst hL; simp
    · subst hL
      have : TET_CHAN ≠ STAR_CHAN := by decide
      simp [this]

/-- One dispatched event seen from the entry of `N` in the per-match map: a join of `N`,
not the bot, on a non-lobby channel `C` sets it to `C`; such a join on another non-lobby
channel, a part or a quit of `N` make it differ from `C`; anything else keeps it. -/
theorem dispatch_wwpPlayers (env : Env) (b : Bot) (e : Event) (N C : Str) :
    (dispatch env b e).1.reg.wwpPlayers.lookup N = some C ↔
      (N ≠ BOT_NAME ∧ ∃ ps, e = Event.join (some N) (C :: ps) ∧ C ≠ STAR_CHAN ∧ C ≠ TET_CHAN)
        ∨ (b.reg.wwpPlayers.lookup N = some C
          ∧ ¬ ((N ≠ BOT_NAME
                ∧ ∃ D ps, e = Event.join (some N) (D :: ps) ∧ D ≠ STAR_CHAN ∧ D ≠ TET_CHAN)
              ∨ (∃ D ps, e = Event.part (some N) (D :: ps))
              ∨ ∃ ps, e = Event.quit N ps)) := by
  rw [dispatch_reg]
  cases e with
  | connect origin params => simp
  | numeric event origin params => simp
  | topic origin params => simp
  | quit origin params =>
    have h := applyCall_wwpPlayers env b.reg (Call.parted origin none) N C
    simp only [applyCall] at h
    rw [h]
    simp
  | part origin params =>
    cases origin with
    | none => simp
    | some nick =>
      cases params with
      | nil => simp
      | cons c ps =>
        have h := applyCall_wwpPlayers env b.reg (Call.parted nick (some c)) N C
        simp only [applyCall] at h
        simp only []
        rw [h]
        simp
  | channel origin params =>
    cases origin with
    | none => simp
    | some nick =>
      match params with
      | [] => simp
      | [_] => simp
      | c :: m :: ps => simp [(playerMessage_players env b.reg nick c m).2.2]
  | join origin params =>
    cases origin with
    | none => simp
    | some nick =>
      cases params with
      | nil => simp
      | cons c ps =>
        simp only []
        by_cases hb : BOT_NAME = nick
        · subst hb
          simp only [ne_eq, not_true_eq_false, if_false, Event.join.injEq, Option.some.injEq,
            List.cons.injEq, reduceCtorEq, exists_false, or_false, false_or]
          constructor
          · intro h
            refine Or.inr ⟨h, ?_⟩
            rintro ⟨hN, D, qs, ⟨hBN, -, -⟩, -, -⟩
            exact hN hBN.symm
          · rintro (⟨hN, qs, ⟨hBN, -, -⟩, -, -⟩ | ⟨h, -⟩)
            · exact absurd hBN.symm hN
            · exact h
        · have h := applyCall_wwpPlayers env b.reg (Call.joined nick c) N C
          simp only [applyCall] at h
          simp only [ne_eq, hb, not_false_eq_true, if_true]
          rw [h]
          simp only [Call.joined.injEq, reduceCtorEq, exists_false, or_false,
            Event.join.injEq, Option.some.injEq, List.cons.injEq]
          constructor
          · rintro (⟨⟨rfl, rfl⟩, h1, h2⟩ | ⟨hl, hn⟩)
            · exact Or.inl ⟨fun e => hb e.symm, ps, ⟨rfl, rfl, rfl⟩, h1, h2⟩
            · refine Or.inr ⟨hl, ?_⟩
              rintro ⟨-, D, qs, ⟨rfl, rfl, -⟩, d1, d2⟩
              exact hn ⟨c, ⟨rfl, rfl⟩, d1, d2⟩
          · rintro (⟨-, qs, ⟨rfl, rfl, -⟩, h1, h2⟩ | ⟨hl, hn⟩)
            · exact Or.inl ⟨⟨rfl, rfl⟩, h1, h2⟩
            · refine Or.inr ⟨hl, ?_⟩
              rintro ⟨D, ⟨rfl, rfl⟩, d1, d2⟩
              exact hn ⟨fun e => hb e.symm, _, ps, ⟨rfl, rfl, rfl⟩, d1, d2⟩

/-- C8, as the code has it: the per-match map holds at most one channel per nickname and the
last join wins, for every nickname but the bot's own: after a sequence of events handled
from the empty registry, the map sends `N` to `C` exactly when `N` is not `DCNetBot` and the
most recent event among the joins of `N` on non-lobby channels and the parts and quits of `N`
is a join of `N` on `C`; a join of `N` on a lobby channel does not change the map. -/
theorem last_join_wins (env : Env) (b : Bot) (es : List Event) (N C : Str)
    (hb : b.reg = Registry.empty) :
    ((run env b es).reg.wwpPlayers.lookup N = some C ↔
        N ≠ BOT_NAME
          ∧ ∃ pre ps post, es = pre ++ Event.join (some N) (C :: ps) :: post
            ∧ C ≠ STAR_CHAN ∧ C ≠ TET_CHAN
            ∧ ∀ x ∈ post,
                (∀ D qs, x = Event.join (some N) (D :: qs) → D = STAR_CHAN ∨ D = TET_CHAN)
                ∧ (∀ D qs, x ≠ Event.part (some N) (D :: qs))
                ∧ ∀ qs, x ≠ Event.quit N qs)
      ∧ ∀ (s : Bot) (L : Str) (ps : List Str), L = STAR_CHAN ∨ L = TET_CHAN →
          (dispatch env s (Event.join (some N) (L :: ps))).1.reg.wwpPlayers
            = s.reg.wwpPlayers := by
  constructor
  · have h := last_set_wins (fun s e => (dispatch env s e).1)
      (fun s => s.reg.wwpPlayers.lookup N = some C)
      (fun e => N ≠ BOT_NAME
        ∧ ∃ ps, e = Event.join (some N) (C :: ps) ∧ C ≠ STAR_CHAN ∧ C ≠ TET_CHAN)
      (fun e => (N ≠ BOT_NAME
          ∧ ∃ D ps, e = Event.join (some N) (D :: ps) ∧ D ≠ STAR_CHAN ∧ D ≠ TET_CHAN)
        ∨ (∃ D ps, e = Event.part (some N) (D :: ps)) ∨ ∃ ps, e = Event.quit N ps)
      (fun s e => dispatch_wwpPlayers env s e N C) es b
    have e0 : ¬ (b.reg.wwpPlayers.lookup N = some C) := by rw [hb]; simp [Registry.empty]
    simp only [e0, false_and, or_false] at h
    rw [run, h]
    constructor
    · rintro ⟨pre, e, post, hes, ⟨hN, ps, rfl, h1, h2⟩, hpost⟩
      refine ⟨hN, pre, ps, post, hes, h1, h2, ?_⟩
      intro x hx
      have := hpost x hx
      rw [not_or, not_or] at this
      refine ⟨fun D qs hD => ?_, fun D qs hD => this.2.1 ⟨D, qs, hD⟩,
        fun qs hq => this.2.2 ⟨qs, hq⟩⟩
      by_contra hc
      rw [not_or] at hc
      exact this.1 ⟨hN, D, qs, hD, hc.1, hc.2⟩
    · rintro ⟨hN, pre, ps, post, hes, h1, h2, hpost⟩
      refine ⟨pre, _, post, hes, ⟨hN, ps, rfl, h1, h2⟩, ?_⟩
      intro x hx
      rw [not_or, not_or]
      refine ⟨?_, ?_, ?_⟩
      · rintro ⟨-, D, qs, hD, d1, d2⟩
        rcases (hpost x hx).1 D qs hD with d | d
        · exact d1 d
        · exact d2 d
      · rintro ⟨D, qs, hD⟩
        exact (hpost x hx).2.1 D qs hD
      · rintro ⟨qs, hq⟩
        exact (hpost x hx).2.2 qs hq
  · intro s L ps hL
    rw [dispatch_reg]
    simp only []
    split
    · unfold playerJoined
      rcases hL with hL | hL
      · subst hL; simp
      · subst hL
        have : TET_CHAN ≠ STAR_CHAN := by decide
        simp [this]
    · rfl

theorem last_join_wins_witness :
    (run Env.quiet Bot.init
        [ Event.join (some "dave".toList) ["#Aerial".toList],
          Event.join (some "dave".toList) ["#Retro".toList],
          Event.join (some "dave".toList) [TET_CHAN] ]).reg.wwpPlayers.lookup "dave".toList
      = some "#Retro".toList := by
  refine ((last_join_wins Env.quiet Bot.init
    [ Event.join (some "dave".toList) ["#Aerial".toList],
      Event.join (some "dave".toList) ["#Retro".toList],
      Event.join (some "dave".toList) [TET_CHAN] ] "dave".toList "#Retro".toList rfl).1).2
    ⟨by decide, [Event.join (some "dave".toList) ["#Aerial".toList]], [],
      [Event.join (some "dave".toList) [TET_CHAN]], rfl, by decide, by decide, ?_⟩
  intro x hx
  rw [List.mem_singleton] at hx
  subst hx
  refine ⟨fun D qs hD => ?_, fun D qs hD => Event.noConfusion hD,
    fun qs hq => Event.noConfusion hq⟩
  injection hD with _ h2
  injection h2 with h3 _
  exact Or.inr h3.symm

/-- C8, as the claim states it, fails for the bot's own nickname: after the single event
"`DCNetBot` joins `#Aerial`" the most recent event among the joins, parts and quits of
`DCNetBot` is a join on the non-lobby channel `#Aerial`, yet the map has no entry for
`DCNetBot`, `event_join` taking the bot's joins as sequencer input. -/
theorem last_join_wins_counterexample :
    (run Env.quiet Bot.init
        [Event.join (some BOT_NAME) ["#Aerial".toList]]).reg.wwpPlayers.lookup BOT_NAME = none
      ∧ [Event.join (some BOT_NAME) ["#Aerial".toList]]
          = [] ++ Event.join (some BOT_NAME) ("#Aerial".toList :: []) :: []
      ∧ "#Aerial".toList ≠ STAR_CHAN ∧ "#Aerial".toList ≠ TET_CHAN := by
  decide

/-! ## Topic check -/

theorem chan_injective : ∀ i j : Fin nChannels, channelAt i = channelAt j → i = j := by
  decide

theorem checkChannelTopicLoop_miss (env : Env) (c t : Str) (cur : Fin nChannels → Str)
    (l : List (Fin nChannels)) (h : ∀ i ∈ l, channelAt i ≠ c) :
    checkChannelTopicLoop env c t l cur = (cur, false, [.log (.unknownChannel c)]) := by
  induction l with
  | nil => rfl
  | cons j rest ih =>
    have hj : channelAt j ≠ c := h j (List.mem_cons_self _ _)
    rw [checkChannelTopicLoop, if_neg hj]
    exact ih (fun i hi => h i (List.mem_cons_of_mem _ hi))

theorem checkChannelTopicLoop_hit (env : Env) (c t : Str) (cur : Fin nChannels → Str)
    (i : Fin nChannels) (hc : channelAt i = c) (l : List (Fin nChannels)) (hi : i ∈ l) :
    checkChannelTopicLoop env c t l cur =
      (Function.update cur i t,
        match topicAt i with
        | some d =>
          if t ≠ d then
            (true,
              [.cmdTopic (channelAt i) d,
                .log (if env.irc_cmd_topic (channelAt i) d ≠ 0 then .topicFailed
                      else .topicChanged (channelAt i) d)])
          else (false, [])
        | none => (false, [])) := by
  induction l with
  | nil => simp at hi
  | cons j rest ih =>
    by_cases hj : channelAt j = c
    · have e : j = i := chan_injective j i (by rw [hj, hc])
      subst e
      rw [checkChannelTopicLoop, if_pos hj]
      simp only [Function.update_same]
      cases topicAt j with
      | none => rfl
      | some d =>
        simp only []
        split <;> rfl
    · rw [checkChannelTopicLoop, if_neg hj]
      apply ih
      rcases List.mem_cons.1 hi with e | e
      · rw [e] at hc; exact absurd hc hj
      · exact e

/-- C10: `checkChannelTopic(c, t)` issues a set-topic command exactly when `c` is
`Channels[i]` for some `i`, a desired topic is configured for `i` and it differs from `t`;
the command is then set-topic(`Channels[i]`, `Topics[i]`), the only one, and the function
returns true whatever the command returns; otherwise it returns false. For a known `c`
slot `i` of the observed topics becomes `t` and no other slot changes; for an unknown `c` no
slot changes and no command is issued. -/
theorem check_channel_topic (env : Env) (cur : Fin nChannels → Str) (c t : Str) :
    (topicCmds (checkChannelTopic env cur c t).2.2 ≠ []
        ↔ ∃ i d, channelAt i = c ∧ topicAt i = some d ∧ d ≠ t)
      ∧ (∀ i d, channelAt i = c → topicAt i = some d → d ≠ t →
          topicCmds (checkChannelTopic env cur c t).2.2 = [(channelAt i, d)]
            ∧ (checkChannelTopic env cur c t).2.1 = true)
      ∧ ((¬ ∃ i d, channelAt i = c ∧ topicAt i = some d ∧ d ≠ t) →
          (checkChannelTopic env cur c t).2.1 = false)
      ∧ (∀ i, channelAt i = c →
          (checkChannelTopic env cur c t).1 i = t
            ∧ ∀ j, j ≠ i → (checkChannelTopic env cur c t).1 j = cur j)
      ∧ ((∀ i, channelAt i ≠ c) →
          (checkChannelTopic env cur c t).1 = cur
            ∧ topicCmds (checkChannelTopic env cur c t).2.2 = []) := by
  have hit : ∀ i d, channelAt i = c → topicAt i = some d → d ≠ t →
      topicCmds (checkChannelTopic env cur c t).2.2 = [(channelAt i, d)]
        ∧ (checkChannelTopic env cur c t).2.1 = true := by
    intro i d hc hw hd
    rw [checkChannelTopic, checkChannelTopicLoop_hit env c t cur i hc _ (List.mem_finRange i)]
    simp only [hw, ne_eq, Ne.symm hd, not_false_eq_true, if_true]
    constructor <;> first | rfl | trivial
  have nohit : (¬ ∃ i d, channelAt i = c ∧ topicAt i = some d ∧ d ≠ t) →
      (checkChannelTopic env cur c t).2.1 = false
        ∧ topicCmds (checkChannelTopic env cur c t).2.2 = [] := by
    intro h
    by_cases hk : ∃ i, channelAt i = c
    · obtain ⟨i, hc⟩ := hk
      rw [checkChannelTopic,
        checkChannelTopicLoop_hit env c t cur i hc _ (List.mem_finRange i)]
      cases hw : topicAt i with
      | none => exact ⟨rfl, rfl⟩
      | some d =>
        have hd : d = t := by
          by_contra hd
          exact h ⟨i, d, hc, hw, hd⟩
        subst hd
        simp only [ne_eq, not_true_eq_false, if_false]
        constructor <;> first | rfl | trivial
    · rw [not_exists] at hk
      rw [checkChannelTopic, checkChannelTopicLoop_miss env c t cur _ (fun i _ => hk i)]
      exact ⟨rfl, rfl⟩
  refine ⟨?_, hit, fun h => (nohit h).1, ?_, ?_⟩
  · constructor
    · intro h
      by_contra hn
      exact h (nohit hn).2
    · rintro ⟨i, d, hc, hw, hd⟩
      rw [(hit i d hc hw hd).1]
      simp
  · intro i hc
    rw [checkChannelTopic, checkChannelTopicLoop_hit env c t cur i hc _ (List.mem_finRange i)]
    exact ⟨Function.update_same _ _ _, fun j hj => Function.update_noteq hj _ _⟩
  · intro hk
    rw [checkChannelTopic, checkChannelTopicLoop_miss env c t cur _ (fun i _ => hk i)]
    exact ⟨rfl, rfl⟩

/-! ## Empty desired topics and repeated observations -/

/-- C11, as the code has it: an empty desired topic is enforced like any other. For a
channel `Channels[i]` whose desired topic is the empty string (`#Strategy`, `#Kung_Food`)
`checkChannelTopic` issues no set-topic command and returns false when the observed topic
`t` is empty, and issues set-topic(`Channels[i]`, "") and returns true when `t` is not
empty. -/
theorem empty_topic_enforced (env : Env) (cur : Fin nChannels → Str) (i : Fin nChannels)
    (t : Str) (hi : topicAt i = some []) :
    (t = [] → topicCmds (checkChannelTopic env cur (channelAt i) t).2.2 = []
        ∧ (checkChannelTopic env cur (channelAt i) t).2.1 = false)
      ∧ (t ≠ [] → topicCmds (checkChannelTopic env cur (channelAt i) t).2.2
            = [(channelAt i, [])]
        ∧ (checkChannelTopic env cur (channelAt i) t).2.1 = true) := by
  rw [checkChannelTopic,
    checkChannelTopicLoop_hit env (channelAt i) t cur i rfl _ (List.mem_finRange i), hi]
  constructor
  · intro ht
    subst ht
    simp only [ne_eq, not_true_eq_false, if_false]
    constructor <;> first | rfl | trivial
  · intro ht
    simp only [ne_eq, ht, not_false_eq_true, if_true]
    constructor <;> first | rfl | trivial

theorem empty_topic_enforced_witness :
    topicCmds (checkChannelTopic Env.quiet (fun _ => []) (channelAt ⟨16, by decide⟩)
        "Food fight".toList).2.2 = [("#Kung_Food".toList, [])]
      ∧ (checkChannelTopic Env.quiet (fun _ => []) (channelAt ⟨16, by decide⟩)
        "Food fight".toList).2.1 = true :=
  (empty_topic_enforced Env.quiet (fun _ => []) ⟨16, by decide⟩ "Food fight".toList
    (by decide)).2 (by decide)

/-- C11, as the claim states it, fails: `#Strategy` is `Channels[5]` with the empty desired
topic; for the observed topic `hello` the function issues set-topic(`#Strategy`, "") and
returns true. -/
theorem empty_topic_counterexample :
    channelAt ⟨5, by decide⟩ = "#Strategy".toList
      ∧ topicAt ⟨5, by decide⟩ = some "".toList
      ∧ topicCmds (checkChannelTopic Env.quiet (fun _ => []) "#Strategy".toList
          "hello".toList).2.2 = [("#Strategy".toList, "".toList)]
      ∧ (checkChannelTopic Env.quiet (fun _ => []) "#Strategy".toList
          "hello".toList).2.1 = true := by
  decide

/-- C12, as the code has it: handling `checkChannelTopic(c, t)` a second time in a row
leaves the observed topics as the first call left them and repeats the first call's outcome,
return value and outputs: the second call issues exactly the set-topic commands of the
first. -/
theorem check_twice_same (env : Env) (cur : Fin nChannels → Str) (c t : Str) :
    checkChannelTopic env (checkChannelTopic env cur c t).1 c t
      = checkChannelTopic env cur c t := by
  by_cases hk : ∃ i, channelAt i = c
  · obtain ⟨i, hc⟩ := hk
    have e := fun cur0 =>
      checkChannelTopicLoop_hit env c t cur0 i hc _ (List.mem_finRange i)
    rw [checkChannelTopic, checkChannelTopic, e cur, e (Function.update cur i t)]
    simp only [Function.update_idem]
  · rw [not_exists] at hk
    have e := fun cur0 => checkChannelTopicLoop_miss env c t cur0 (List.finRange nChannels)
      (fun i _ => hk i)
    rw [checkChannelTopic, checkChannelTopic, e cur, e cur]

/-- C12, as the claim states it, fails: for the known channel `#Aerial` and the observed
topic `hello`, the second of two calls in a row issues the set-topic command again. -/
theorem check_twice_counterexample :
    topicCmds (checkChannelTopic Env.quiet
        (checkChannelTopic Env.quiet (fun _ => []) "#Aerial".toList "hello".toList).1
        "#Aerial".toList "hello".toList).2.2
      = [("#Aerial".toList, "2 Worms are equipped with Jet Packs".toList)] := by
  decide

/-! ## Malformed tokens, challenges, delivery failures, re-creation -/

theorem strchr_isSome_of_mem (a : Str) (c : Char) (h : c ∈ a) : ∃ k, strchr a c = some k := by
  induction a with
  | nil => simp at h
  | cons x xs ih =>
    by_cases hx : x = c
    · exact ⟨0, by simp [strchr, hx]⟩
    · have hxs : c ∈ xs := by
        rcases List.mem_cons.1 h with e | e
        · exact absurd e.symm hx
        · exact e
      obtain ⟨k, hk⟩ := ih hxs
      exact ⟨k + 1, by simp [strchr, hx, hk]⟩

/-- C14: on a per-match channel `playerMessage` returns with the registry unchanged and
nothing sent out when the text starts with `<r:gamename>` and has no `!`, when it starts
with `<c:` and has no `!`, and when it starts with `<c:` and has a `!` but no `>` after the
first `!`. -/
theorem malformed_tokens_ignored (env : Env) (r : Registry) (nick channel rest a b : Str)
    (h1 : channel ≠ STAR_CHAN) (h2 : channel ≠ TET_CHAN) :
    ('!' ∉ rest → playerMessage env r nick channel ("<r:gamename>".toList ++ rest) = (r, []))
      ∧ ('!' ∉ rest → playerMessage env r nick channel ("<c:".toList ++ rest) = (r, []))
      ∧ ('!' ∉ a → '>' ∉ b →
          playerMessage env r nick channel ("<c:".toList ++ a ++ "!".toList ++ b)
            = (r, [])) := by
  refine ⟨?_, ?_, ?_⟩
  · intro hr
    have hp : strncmpEq "<r:gamename>".toList ("<r:gamename>".toList ++ rest) 12 = true :=
      strncmpEq_prefix "<r:gamename>".toList rest
    have hb : strchr ("<r:gamename>".toList ++ rest) '!' = none :=
      strchr_none _ _ (by
        simp only [List.mem_append, not_or]; exact ⟨by decide, hr⟩)
    unfold playerMessage
    simp only [h1, h2, if_false, hp, if_true, hb]
  · intro hr
    have h0 : strncmpEq "<r:gamename>".toList ("<c:".toList ++ rest) 12 = false := by
      simp [strncmpEq]
    have hp : strncmpEq "<c:".toList ("<c:".toList ++ rest) 3 = true :=
      strncmpEq_prefix "<c:".toList rest
    have hb : strchr ("<c:".toList ++ rest) '!' = none :=
      strchr_none _ _ (by
        simp only [List.mem_append, not_or]; exact ⟨by decide, hr⟩)
    unfold playerMessage
    simp only [h1, h2, if_false, h0, Bool.false_eq_true, hp, if_true, hb]
  · intro ha hb
    obtain ⟨f1, f2, -, -, f5⟩ := token_fields "<c:".toList a b 3 rfl (by decide) ha
    have e : "<c:".toList ++ a ++ "!".toList ++ b = "<c:".toList ++ a ++ '!' :: b := by
      simp only [List.append_assoc]; rfl
    have h0 : strncmpEq "<r:gamename>".toList ("<c:".toList ++ a ++ '!' :: b) 12 = false := by
      simp [strncmpEq]
    have hgt : strchr ('!' :: b) '>' = none :=
      strchr_none _ _ (by
        simp only [List.mem_cons, not_or]; exact ⟨by decide, hb⟩)
    rw [e]
    unfold playerMessage
    simp only [h1, h2, if_false, h0, Bool.false_eq_true, f1, if_true, f2, f5, hgt]

theorem malformed_tokens_ignored_witness :
    playerMessage Env.quiet Registry.sample "bob".toList "#Aerial".toList
      ("<c:".toList ++ "alice".toList ++ "!".toList ++ "m".toList) = (Registry.sample, []) :=
  (malformed_tokens_ignored Env.quiet Registry.sample "bob".toList "#Aerial".toList []
    "alice".toList "m".toList (by decide) (by decide)).2.2 (by decide) (by decide)

/-- C15: on `#TNT_Lobby`, `playerMessage` sends a notification exactly when the text begins
with `ACCEPT*` and has a further `*` after these 7 characters; the notification is then the
challenge-accepted notice naming the sender and, as challenger, the text between the prefix
and the first such `*`; the registry is unchanged in every case. -/
theorem tetris_challenge (env : Env) (r : Registry) (N t : Str) :
    (playerMessage env r N TET_CHAN t).1 = r
      ∧ ((∃ g n, Output.discordNotif g n ∈ (playerMessage env r N TET_CHAN t).2)
          ↔ (t.take 7 = "ACCEPT*".toList ∧ '*' ∈ t.drop 7))
      ∧ ∀ ch rest, '*' ∉ ch →
          (playerMessage env r N TET_CHAN ("ACCEPT*".toList ++ ch ++ "*".toList ++ rest)).2
              = notify env (discordTetrisChallengeAccepted env r N ch)
            ∧ (discordTetrisChallengeAccepted env r N ch).2.content
              = "Player **".toList ++ env.discordEscape N ++ "** has accepted **".toList
                  ++ env.discordEscape ch ++ "**'s challenge!".toList := by
  have hts : TET_CHAN ≠ STAR_CHAN := by decide
  have hnotif : ∀ p : Str × Notif, ∃ g n, Output.discordNotif g n ∈ notify env p := by
    intro p
    refine ⟨p.1, p.2, ?_⟩
    unfold notify
    split <;> simp
  refine ⟨playerMessage_lobby env r N TET_CHAN t (Or.inr rfl), ?_, ?_⟩
  · unfold playerMessage
    simp only [hts, if_false, if_true]
    by_cases hp : t.take 7 = "ACCEPT*".toList
    · have hp2 : strncmpEq t "ACCEPT*".toList 7 = true := by
        simp only [strncmpEq, decide_eq_true_eq]
        rw [hp]; rfl
      simp only [hp2, Bool.not_true, Bool.false_eq_true, if_false, hp, true_and]
      by_cases hm : '*' ∈ t.drop 7
      · obtain ⟨k, hk⟩ := strchr_isSome_of_mem _ _ hm
        simp only [hk, hm, iff_true]
        exact hnotif _
      · simp only [strchr_none _ _ hm, hm, iff_false]
        simp
    · have hp2 : strncmpEq t "ACCEPT*".toList 7 = false := by
        simp only [strncmpEq, decide_eq_false_iff_not]
        intro e
        exact hp (by rw [e]; rfl)
      simp only [hp2, Bool.not_false, if_true, hp, false_and, iff_false]
      simp
  · intro ch rest hch
    refine ⟨?_, ?_⟩
    · have e : "ACCEPT*".toList ++ ch ++ "*".toList ++ rest
          = "ACCEPT*".toList ++ (ch ++ '*' :: rest) := by
        simp only [List.append_assoc]; rfl
      have hp2 : strncmpEq ("ACCEPT*".toList ++ (ch ++ '*' :: rest)) "ACCEPT*".toList 7
          = true := by
        simp [strncmpEq]
      have hd : ("ACCEPT*".toList ++ (ch ++ '*' :: rest)).drop 7 = ch ++ '*' :: rest :=
        List.drop_left' rfl
      have hk : strchr (ch ++ '*' :: rest) '*' = some ch.length :=
        strchr_append_cons ch rest '*' hch
      have hsub : substr (ch ++ '*' :: rest) 0 ch.length = ch := by
        simp [substr]
      rw [e]
      unfold playerMessage
      simp only [hts, if_false, if_true, hp2, Bool.not_true, Bool.false_eq_true, hd, hk, hsub]
    · simp only [discordTetrisChallengeAccepted, List.append_assoc]
      rfl

/-- C16: the registry left by `playerJoined` and by `playerMessage` (a create token
included) does not depend on what the notification interface does: it is the same whether
`discordNotif` returns or throws; when it throws, the handler still returns, the error
being logged after the attempted notification. -/
theorem delivery_failure_keeps_registry (env1 env2 : Env) (r : Registry)
    (nick channel msg : Str) :
    (playerJoined env1 r nick channel).1 = (playerJoined env2 r nick channel).1
      ∧ (playerMessage env1 r nick channel msg).1 = (playerMessage env2 r nick channel msg).1
      ∧ ∀ (what : Str) (p : Str × Notif), env1.discordNotif p.1 p.2 = .error what →
          notify env1 p = [.discordNotif p.1 p.2, .log (.discordError what)] := by
  refine ⟨?_, ?_, ?_⟩
  · unfold playerJoined
    split
    · rfl
    · split <;> rfl
  · by_cases hl : channel = STAR_CHAN ∨ channel = TET_CHAN
    · rw [playerMessage_lobby env1 r nick channel msg hl,
        playerMessage_lobby env2 r nick channel msg hl]
    · rw [not_or] at hl
      rw [playerMessage_reg env1 r nick channel msg hl.1 hl.2,
        playerMessage_reg env2 r nick channel msg hl.1 hl.2]
  · intro what p hp
    unfold notify
    rw [hp]

/-- C20: when session `G` exists, whatever its creator and participants, the create token
`<r:gamename>S!G` sent by `S` (no `!` in `S`) on a per-match channel `C` leaves under `G`
the session with creator `S`, channel `C` without its first character and participants
`[S]`, and leaves every other session unchanged. -/
theorem create_replaces (env : Env) (r : Registry) (C S G : Str) (g : Game)
    (hC1 : C ≠ STAR_CHAN) (hC2 : C ≠ TET_CHAN) (hS : '!' ∉ S)
    (_hg : r.wwpGames.lookup G = some g) :
    (playerMessage env r S C ("<r:gamename>".toList ++ S ++ "!".toList ++ G)).1.wwpGames.lookup G
        = some { gameId := G, creator := S, channel := C.tail, players := [S] }
      ∧ ∀ G2, G2 ≠ G →
          (playerMessage env r S C
            ("<r:gamename>".toList ++ S ++ "!".toList ++ G)).1.wwpGames.lookup G2
            = r.wwpGames.lookup G2 := by
  have e1 := playerMessage_reg env r S C (joinToken S G) hC1 hC2
  rw [parseJoin_joinToken S G hS] at e1
  simp only [if_true] at e1
  show (playerMessage env r S C (joinToken S G)).1.wwpGames.lookup G = _
    ∧ ∀ G2, G2 ≠ G → (playerMessage env r S C (joinToken S G)).1.wwpGames.lookup G2 = _
  rw [e1]
  exact ⟨Finmap.lookup_insert _, fun G2 h2 => Finmap.lookup_insert_of_ne _ h2⟩

theorem create_replaces_witness :
    (playerMessage Env.quiet Registry.sample "zed".toList "#Retro".toList
        ("<r:gamename>".toList ++ "zed".toList ++ "!".toList
          ++ "m".toList)).1.wwpGames.lookup "m".toList
      = some { gameId := "m".toList, creator := "zed".toList, channel := "Retro".toList,
               players := ["zed".toList] } :=
  (create_replaces Env.quiet Registry.sample "#Retro".toList "zed".toList "m".toList
    Game.sample (by decide) (by decide) (by decide) (by decide)).1

/-! ## The topic sweep -/

/-- The check of the sweep, `checkChannelTopic(Channels[i], curTopics[i])`: the observed
topics stay as they are, a command is issued when slot `i` differs from a configured
desired topic. -/
theorem checkChannelTopic_self (env : Env) (cur : Fin nChannels → Str) (i : Fin nChannels) :
    checkChannelTopic env cur (channelAt i) (cur i) =
      (cur,
        match topicAt i with
        | some d =>
          if cur i ≠ d then
            (true,
              [.cmdTopic (channelAt i) d,
                .log (if env.irc_cmd_topic (channelAt i) d ≠ 0 then .topicFailed
                      else .topicChanged (channelAt i) d)])
          else (false, [])
        | none => (false, [])) := by
  rw [checkChannelTopic,
    checkChannelTopicLoop_hit env (channelAt i) (cur i) cur i rfl _ (List.mem_finRange i),
    Function.update_eq_self]

theorem topicSweep_none (env : Env) (cur : Fin nChannels → Str) :
    ∀ (fuel idx : Nat), idx + fuel = nChannels →
      (∀ j : Fin nChannels, idx ≤ j.val → ∀ e, topicAt j = some e → cur j = e) →
      topicSweep env fuel cur idx = (cur, nChannels, []) := by
  intro fuel
  induction fuel with
  | zero =>
    intro idx h _
    simp only [Nat.add_zero] at h
    rw [topicSweep, h]
  | succ fuel ih =>
    intro idx h hno
    have hlt : idx < nChannels := by omega
    rw [topicSweep, dif_pos hlt]
    simp only [checkChannelTopic_self]
    have hstep : (match topicAt ⟨idx, hlt⟩ with
        | some d =>
          if cur ⟨idx, hlt⟩ ≠ d then
            (true,
              [Output.cmdTopic (channelAt ⟨idx, hlt⟩) d,
                Output.log (if env.irc_cmd_topic (channelAt ⟨idx, hlt⟩) d ≠ 0
                  then LogLine.topicFailed
                  else LogLine.topicChanged (channelAt ⟨idx, hlt⟩) d)])
          else (false, [])
        | none => (false, [])) = ((false, []) : Bool × List Output) := by
      cases hw : topicAt ⟨idx, hlt⟩ with
      | none => rfl
      | some d =>
        have := hno ⟨idx, hlt⟩ (Nat.le_refl _) d hw
        simp only [ne_eq, this, not_true_eq_false, if_false]
    rw [hstep]
    simp only [Bool.false_eq_true, if_false]
    rw [ih (idx + 1) (by omega) (fun j hj => hno j (by omega))]
    rfl

theorem topicSweep_first (env : Env) (cur : Fin nChannels → Str) (i : Fin nChannels) (d : Str)
    (hw : topicAt i = some d) (hd : cur i ≠ d) :
    ∀ (fuel idx : Nat), idx + fuel = nChannels → idx ≤ i.val →
      (∀ j : Fin nChannels, idx ≤ j.val → j.val < i.val →
        ∀ e, topicAt j = some e → cur j = e) →
      topicSweep env fuel cur idx =
        (cur, i.val + 1,
          [.cmdTopic (channelAt i) d,
            .log (if env.irc_cmd_topic (channelAt i) d ≠ 0 then .topicFailed
                  else .topicChanged (channelAt i) d)]) := by
  intro fuel
  induction fuel with
  | zero =>
    intro idx h hle _
    have := i.isLt
    omega
  | succ fuel ih =>
    intro idx h hle hno
    have hlt : idx < nChannels := by omega
    rw [topicSweep, dif_pos hlt]
    simp only [checkChannelTopic_self]
    by_cases hi : idx = i.val
    · subst hi
      simp only [Fin.eta, hw, ne_eq, hd, not_false_eq_true, if_true]
    · have hlt2 : idx < i.val := by omega
      have hstep : (match topicAt ⟨idx, hlt⟩ with
          | some d =>
            if cur ⟨idx, hlt⟩ ≠ d then
              (true,
                [Output.cmdTopic (channelAt ⟨idx, hlt⟩) d,
                  Output.log (if env.irc_cmd_topic (channelAt ⟨idx, hlt⟩) d ≠ 0
                    then LogLine.topicFailed
                    else LogLine.topicChanged (channelAt ⟨idx, hlt⟩) d)])
            else (false, [])
          | none => (false, [])) = ((false, []) : Bool × List Output) := by
        cases hw2 : topicAt ⟨idx, hlt⟩ with
        | none => rfl
        | some e =>
          have := hno ⟨idx, hlt⟩ (Nat.le_refl _) hlt2 e hw2
          simp only [ne_eq, this, not_true_eq_false, if_false]
      rw [hstep]
      simp only [Bool.false_eq_true, if_false]
      rw [ih (idx + 1) (by omega) (by omega) (fun j hj hj2 => hno j (by omega) hj2)]
      rfl

theorem topicSweep_cmds_le (env : Env) :
    ∀ (fuel idx : Nat) (cur : Fin nChannels → Str),
      (topicCmds (topicSweep env fuel cur idx).2.2).length ≤ 1 := by
  intro fuel
  induction fuel with
  | zero => intro idx cur; simp [topicSweep, topicCmds]
  | succ fuel ih =>
    intro idx cur
    rw [topicSweep]
    by_cases hlt : idx < nChannels
    · rw [dif_pos hlt]
      simp only [checkChannelTopic_self]
      cases hw : topicAt ⟨idx, hlt⟩ with
      | none =>
        simp only [Bool.false_eq_true, if_false, List.nil_append]
        exact ih _ _
      | some d =>
        by_cases hd : cur ⟨idx, hlt⟩ = d
        · simp only [ne_eq, hd, not_true_eq_false, if_false, Bool.false_eq_true,
            List.nil_append]
          exact ih _ _
        · simp only [ne_eq, hd, not_false_eq_true, if_true, topicCmds, List.length_cons,
            List.length_nil, Nat.zero_add, Nat.le_refl]
    · rw [dif_neg hlt]
      simp [topicCmds]

/-- C18: a sweep pass started at a cursor `c` (at most the channel count) issues one
set-topic command, for the smallest index `i ≥ c` whose desired topic is configured and
differs from observed slot `i`, sends nothing else but the log line of that command, and
leaves the cursor at `i + 1`; without such an index it sends nothing and leaves the cursor at
the channel count; the observed topics are unchanged. A pass never issues more than one
set-topic command. -/
theorem sweep_one_correction (env : Env) (cur : Fin nChannels → Str) (c : Nat)
    (hc : c ≤ nChannels) :
    (∀ (i : Fin nChannels) (d : Str), c ≤ i.val → topicAt i = some d → cur i ≠ d →
        (∀ j : Fin nChannels, c ≤ j.val → j.val < i.val →
          ∀ e, topicAt j = some e → cur j = e) →
        (runSweep env cur c).1 = cur ∧ (runSweep env cur c).2.1 = i.val + 1
          ∧ (runSweep env cur c).2.2
            = [.cmdTopic (channelAt i) d,
                .log (if env.irc_cmd_topic (channelAt i) d ≠ 0 then .topicFailed
                      else .topicChanged (channelAt i) d)])
      ∧ ((∀ j : Fin nChannels, c ≤ j.val → ∀ e, topicAt j = some e → cur j = e) →
        (runSweep env cur c).1 = cur ∧ (runSweep env cur c).2.1 = nChannels
          ∧ (runSweep env cur c).2.2 = [])
      ∧ (topicCmds (runSweep env cur c).2.2).length ≤ 1 := by
  refine ⟨?_, ?_, topicSweep_cmds_le env _ _ _⟩
  · intro i d hci hw hd hno
    rw [runSweep, topicSweep_first env cur i d hw hd (nChannels - c) c (by omega) hci hno]
    exact ⟨rfl, rfl, rfl⟩
  · intro hno
    rw [runSweep, topicSweep_none env cur (nChannels - c) c (by omega) hno]
    exact ⟨rfl, rfl, rfl⟩

theorem sweep_one_correction_witness :
    (runSweep Env.quiet (fun _ => []) 5).1 = (fun _ => [])
      ∧ (runSweep Env.quiet (fun _ => []) 5).2.1 = 6 + 1
      ∧ (runSweep Env.quiet (fun _ => []) 5).2.2
        = [.cmdTopic (channelAt ⟨6, by decide⟩) "12 All weapons are dropped via crate".toList,
            .log (if Env.quiet.irc_cmd_topic (channelAt ⟨6, by decide⟩)
                  "12 All weapons are dropped via crate".toList ≠ 0 then .topicFailed
                else .topicChanged (channelAt ⟨6, by decide⟩)
                  "12 All weapons are dropped via crate".toList)] :=
  (sweep_one_correction Env.quiet (fun _ => []) 5 (by decide)).1 ⟨6, by decide⟩
    "12 All weapons are dropped via crate".toList (by decide) (by decide) (by decide)
    (by decide)

/-! ## Channel-join sequencing -/

theorem joinCmds_append (a b : List Output) : joinCmds (a ++ b) = joinCmds a ++ joinCmds b := by
  induction a with
  | nil => rfl
  | cons x xs ih => cases x <;> simp [joinCmds, ih]

theorem joinCmds_notify (env : Env) (p : Str × Notif) : joinCmds (notify env p) = [] := by
  unfold notify
  split <;> rfl

theorem joinCmds_playerJoined (env : Env) (r : Registry) (nick channel : Str) :
    joinCmds (playerJoined env r nick channel).2 = [] := by
  unfold playerJoined
  split
  · exact joinCmds_notify _ _
  · split <;> exact joinCmds_notify _ _

theorem joinCmds_topicSweep (env : Env) :
    ∀ (fuel idx : Nat) (cur : Fin nChannels → Str),
      joinCmds (topicSweep env fuel cur idx).2.2 = [] := by
  intro fuel
  induction fuel with
  | zero => intro idx cur; rfl
  | succ fuel ih =>
    intro idx cur
    rw [topicSweep]
    by_cases hlt : idx < nChannels
    · rw [dif_pos hlt]
      simp only [checkChannelTopic_self]
      cases hw : topicAt ⟨idx, hlt⟩ with
      | none =>
        simp only [Bool.false_eq_true, if_false, List.nil_append]
        exact ih _ _
      | some d =>
        by_cases hd : cur ⟨idx, hlt⟩ = d
        · simp only [ne_eq, hd, not_true_eq_false, if_false, Bool.false_eq_true,
            List.nil_append]
          exact ih _ _
        · simp only [ne_eq, hd, not_false_eq_true, if_true]
          rfl
    · rw [dif_neg hlt]
      rfl

theorem Channels_drop : ∀ i : Fin nChannels,
    Channels.drop i.val = channelAt i :: Channels.drop (i.val + 1) := by
  decide

/-- A join by another nickname leaves the sequencer alone. -/
theorem event_join_other (env : Env) (s : Bot) (origin : Option Str) (params : List Str)
    (h : isBotJoin (Event.join origin params) = false) :
    (event_join env s origin params).1.joinIndex = s.joinIndex
      ∧ (event_join env s origin params).1.topicIndex = s.topicIndex
      ∧ (event_join env s origin params).1.curTopics = s.curTopics
      ∧ joinCmds (event_join env s origin params).2 = []
      ∧ topicCmds (event_join env s origin params).2 = [] := by
  cases origin with
  | none => exact ⟨rfl, rfl, rfl, rfl, rfl⟩
  | some nick =>
    cases params with
    | nil => exact ⟨rfl, rfl, rfl, rfl, rfl⟩
    | cons p ps =>
      simp only [isBotJoin, decide_eq_false_iff_not] at h
      simp only [event_join, List.length_cons, Nat.add_one_ne_zero, if_false, ne_eq, h,
        not_false_eq_true, if_true]
      refine ⟨trivial, trivial, trivial, ?_, ?_⟩
      · exact joinCmds_playerJoined _ _ _ _
      · unfold playerJoined notify
        simp only [topicCmds]
        split
        · split <;> rfl
        · split
          · split <;> rfl
          · split <;> rfl

/-- A confirmation by the bot while channels remain: the next join command, nothing else. -/
theorem event_join_bot_next (env : Env) (s : Bot) (p : Str) (ps : List Str)
    (h : s.joinIndex < nChannels) :
    (event_join env s (some BOT_NAME) (p :: ps)).1.joinIndex = s.joinIndex + 1
      ∧ (event_join env s (some BOT_NAME) (p :: ps)).1.topicIndex = s.topicIndex
      ∧ (event_join env s (some BOT_NAME) (p :: ps)).1.curTopics = s.curTopics
      ∧ joinCmds (event_join env s (some BOT_NAME) (p :: ps)).2 = [channelAt ⟨s.joinIndex, h⟩]
      ∧ topicCmds (event_join env s (some BOT_NAME) (p :: ps)).2 = [] := by
  simp only [event_join, List.length_cons, Nat.add_one_ne_zero, if_false, ne_eq,
    not_true_eq_false, dif_pos h]
  refine ⟨trivial, trivial, trivial, ?_, ?_⟩
  · split <;> rfl
  · split <;> rfl

/-- A confirmation by the bot once every join has been issued: the sweep from index 0. -/
theorem event_join_bot_sweep (env : Env) (s : Bot) (p : Str) (ps : List Str)
    (h : ¬ s.joinIndex < nChannels) :
    (event_join env s (some BOT_NAME) (p :: ps)).1.joinIndex = s.joinIndex
      ∧ (event_join env s (some BOT_NAME) (p :: ps)).1.topicIndex
          = (runSweep env s.curTopics 0).2.1
      ∧ (event_join env s (some BOT_NAME) (p :: ps)).1.curTopics
          = (runSweep env s.curTopics 0).1
      ∧ (event_join env s (some BOT_NAME) (p :: ps)).2
          = .log (.joined p) :: (runSweep env s.curTopics 0).2.2
      ∧ joinCmds (event_join env s (some BOT_NAME) (p :: ps)).2 = [] := by
  simp only [event_join, List.length_cons, Nat.add_one_ne_zero, if_false, ne_eq,
    not_true_eq_false, dif_neg h]
  refine ⟨trivial, trivial, trivial, rfl, ?_⟩
  exact joinCmds_topicSweep env _ _ _

theorem runOut_joins (env : Env) :
    ∀ (es : List Event) (s : Bot), (∀ e ∈ es, isJoin e = true) → s.joinIndex ≤ nChannels →
      joinCmds (runOut env s es).2
          = (Channels.drop s.joinIndex).take
              (min (es.countP isBotJoin) (nChannels - s.joinIndex))
        ∧ (runOut env s es).1.joinIndex = min (s.joinIndex + es.countP isBotJoin) nChannels := by
  intro es
  induction es with
  | nil =>
    intro s _ hle
    simp only [runOut, joinCmds, List.countP_nil, Nat.zero_min, List.take_zero, Nat.add_zero,
      true_and]
    omega
  | cons e es ih =>
    intro s hes hle
    have hrest : ∀ x ∈ es, isJoin x = true := fun x hx => hes x (List.mem_cons_of_mem _ hx)
    have he := hes e (List.mem_cons_self _ _)
    cases e with
    | join origin params =>
      by_cases hb : isBotJoin (Event.join origin params) = true
      · rw [List.countP_cons_of_pos _ _ hb]
        cases origin with
        | none => simp [isBotJoin] at hb
        | some nick =>
          cases params with
          | nil => simp [isBotJoin] at hb
          | cons p ps =>
            simp only [isBotJoin, decide_eq_true_eq] at hb
            subst hb
            by_cases hlt : s.joinIndex < nChannels
            · obtain ⟨h1, -, -, h4, -⟩ := event_join_bot_next env s p ps hlt
              have ih2 := ih (event_join env s (some BOT_NAME) (p :: ps)).1 hrest
                (by rw [h1]; omega)
              rw [h1] at ih2
              simp only [runOut, dispatch, joinCmds_append, h4, ih2.1, ih2.2]
              constructor
              · have e1 : min (List.countP isBotJoin es + 1) (nChannels - s.joinIndex)
                    = min (List.countP isBotJoin es) (nChannels - (s.joinIndex + 1)) + 1 := by
                  omega
                rw [e1, Channels_drop ⟨s.joinIndex, hlt⟩, List.take_succ_cons]
                rfl
              · omega
            · obtain ⟨h1, -, -, -, h5⟩ := event_join_bot_sweep env s p ps hlt
              have ih2 := ih (event_join env s (some BOT_NAME) (p :: ps)).1 hrest
                (by rw [h1]; omega)
              rw [h1] at ih2
              simp only [runOut, dispatch, joinCmds_append, h5, ih2.1, ih2.2, List.nil_append]
              constructor
              · have e1 : min (List.countP isBotJoin es + 1) (nChannels - s.joinIndex) = 0 := by
                  omega
                have e2 : min (List.countP isBotJoin es) (nChannels - s.joinIndex) = 0 := by
                  omega
                rw [e1, e2]
              · omega
      · have hb2 : isBotJoin (Event.join origin params) = false := by
          cases h : isBotJoin (Event.join origin params)
          · rfl
          · exact absurd h hb
        rw [List.countP_cons_of_neg _ _ hb]
        obtain ⟨h1, -, -, h4, -⟩ := event_join_other env s origin params hb2
        have ih2 := ih (event_join env s origin params).1 hrest (by rw [h1]; exact hle)
        rw [h1] at ih2
        simp only [runOut, dispatch, joinCmds_append, h4, ih2.1, ih2.2, List.nil_append]
        exact ⟨trivial, trivial⟩
    | connect origin params => simp [isJoin] at he
    | part origin params => simp [isJoin] at he
    | channel origin params => simp [isJoin] at he
    | numeric event origin params => simp [isJoin] at he
    | topic origin params => simp [isJoin] at he
    | quit origin params => simp [isJoin] at he

/-- C13: the connect event empties every observed-topic slot and issues set-user-mode `+iB`,
then join(`Channels[0]`). After it, for a sequence of join events with `k` confirmations by
the bot itself among joins of other nicknames, the join commands issued since the connect
are `Channels[0], ..., Channels[min(k, 18)]` in list order and `joinIndex` is
`min(k + 1, 19)`; a join by another nickname issues no join command and leaves the
sequencer alone; a confirmation by the bot runs the topic sweep from index 0 exactly when
`joinIndex` has reached 19, and issues the next join otherwise. -/
theorem join_sequencing (env : Env) (b : Bot) (origin : Option Str) (es : List Event)
    (hes : ∀ e ∈ es, isJoin e = true) :
    (event_connect env b origin).1.curTopics = (fun _ => [])
      ∧ (event_connect env b origin).2
          = [.log (.connected origin), .cmdUserMode "+iB".toList, .cmdJoin "#Aerial".toList]
            ++ (if env.irc_cmd_join "#Aerial".toList ≠ 0 then [.log .joinFailed] else [])
      ∧ joinCmds ((event_connect env b origin).2
            ++ (runOut env (event_connect env b origin).1 es).2)
          = Channels.take (min (es.countP isBotJoin) 18 + 1)
      ∧ (runOut env (event_connect env b origin).1 es).1.joinIndex
          = min (es.countP isBotJoin + 1) nChannels
      ∧ (∀ (s : Bot) (o : Option Str) (ps : List Str),
          isBotJoin (Event.join o ps) = false →
            (event_join env s o ps).1.joinIndex = s.joinIndex
              ∧ (event_join env s o ps).1.topicIndex = s.topicIndex
              ∧ (event_join env s o ps).1.curTopics = s.curTopics
              ∧ joinCmds (event_join env s o ps).2 = []
              ∧ topicCmds (event_join env s o ps).2 = [])
      ∧ (∀ (s : Bot) (p : Str) (ps : List Str), s.joinIndex < nChannels →
          (event_join env s (some BOT_NAME) (p :: ps)).1.topicIndex = s.topicIndex
            ∧ (event_join env s (some BOT_NAME) (p :: ps)).1.curTopics = s.curTopics
            ∧ topicCmds (event_join env s (some BOT_NAME) (p :: ps)).2 = [])
      ∧ (∀ (s : Bot) (p : Str) (ps : List Str), ¬ s.joinIndex < nChannels →
          (event_join env s (some BOT_NAME) (p :: ps)).1.topicIndex
              = (runSweep env s.curTopics 0).2.1
            ∧ (event_join env s (some BOT_NAME) (p :: ps)).1.curTopics
              = (runSweep env s.curTopics 0).1
            ∧ (event_join env s (some BOT_NAME) (p :: ps)).2
              = .log (.joined p) :: (runSweep env s.curTopics 0).2.2) := by
  have h := runOut_joins env es (event_connect env b origin).1 hes (by
    show 1 ≤ nChannels
    decide)
  have hj : (event_connect env b origin).1.joinIndex = 1 := rfl
  have hc : joinCmds (event_connect env b origin).2 = Channels.take 1 := by
    simp only [event_connect]
    split <;> rfl
  refine ⟨rfl, rfl, ?_, ?_, ?_, ?_, ?_⟩
  · rw [joinCmds_append, h.1, hj, hc, Nat.add_comm _ 1, List.take_add]
    rfl
  · rw [h.2, hj, Nat.add_comm]
  · intro s o ps hb
    exact event_join_other env s o ps hb
  · intro s p ps hlt
    obtain ⟨-, h2, h3, -, h5⟩ := event_join_bot_next env s p ps hlt
    exact ⟨h2, h3, h5⟩
  · intro s p ps hlt
    obtain ⟨-, h2, h3, h4, -⟩ := event_join_bot_sweep env s p ps hlt
    exact ⟨h2, h3, h4⟩

theorem join_sequencing_witness :
    joinCmds ((event_connect Env.quiet Bot.init none).2
        ++ (runOut Env.quiet (event_connect Env.quiet Bot.init none).1
            [ Event.join (some BOT_NAME) ["#Aerial".toList],
              Event.join (some "alice".toList) ["#Aerial".toList],
              Event.join (some BOT_NAME) ["#Retro".toList] ]).2)
      = ["#Aerial".toList, "#Retro".toList, "#Tankxz".toList] :=
  (join_sequencing Env.quiet Bot.init none
    [ Event.join (some BOT_NAME) ["#Aerial".toList],
      Event.join (some "alice".toList) ["#Aerial".toList],
      Event.join (some BOT_NAME) ["#Retro".toList] ] (by decide)).2.2.1

/-! ## Index safety -/

theorem channelsGet?_fin : ∀ i : Fin nChannels, channelsGet? i.val = some (channelAt i) := by
  decide

theorem topicsGet?_fin : ∀ i : Fin nChannels, topicsGet? i.val = some (topicAt i) := by
  decide

theorem curGet?_fin (cur : Fin nChannels → Str) (i : Fin nChannels) :
    curGet? cur i.val = some (cur i) := by
  simp [curGet?]

theorem curSet?_fin (cur : Fin nChannels → Str) (i : Fin nChannels) (v : Str) :
    curSet? cur i.val v = some (Function.update cur i v) := by
  simp [curSet?]

theorem checkChannelTopicLoopChecked_eq (env : Env) (channel topic : Str) :
    ∀ (l : List (Fin nChannels)) (cur : Fin nChannels → Str),
      checkChannelTopicLoopChecked env channel topic (l.map Fin.val) cur
        = some (checkChannelTopicLoop env channel topic l cur) := by
  intro l
  induction l with
  | nil => intro cur; rfl
  | cons i rest ih =>
    intro cur
    simp only [List.map_cons, checkChannelTopicLoopChecked, checkChannelTopicLoop,
      channelsGet?_fin, curSet?_fin, topicsGet?_fin, curGet?_fin, Option.bind_eq_bind,
      Option.some_bind, Option.pure_def]
    by_cases hc : channelAt i = channel
    · simp only [hc, if_true]
      cases topicAt i with
      | none => rfl
      | some t =>
        simp only [Function.update_same]
        split <;> rfl
    · simp only [hc, if_false]
      exact ih cur

theorem range_eq_finRange : List.range nChannels = (List.finRange nChannels).map Fin.val := by
  decide

theorem checkChannelTopicChecked_eq (env : Env) (cur : Fin nChannels → Str)
    (channel topic : Str) :
    checkChannelTopicChecked env cur channel topic
      = some (checkChannelTopic env cur channel topic) := by
  rw [checkChannelTopicChecked, range_eq_finRange, checkChannelTopicLoopChecked_eq]
  rfl

theorem topicSweepChecked_eq (env : Env) :
    ∀ (fuel : Nat) (cur : Fin nChannels → Str) (idx : Nat),
      topicSweepChecked env fuel cur idx = some (topicSweep env fuel cur idx) := by
  intro fuel
  induction fuel with
  | zero => intro cur idx; rfl
  | succ fuel ih =>
    intro cur idx
    rw [topicSweepChecked, topicSweep]
    by_cases hlt : idx < nChannels
    · rw [if_pos hlt, dif_pos hlt]
      have h1 := channelsGet?_fin ⟨idx, hlt⟩
      have h2 := curGet?_fin cur ⟨idx, hlt⟩
      simp only at h1 h2
      simp only [h1, h2, checkChannelTopicChecked_eq, ih, Option.bind_eq_bind,
        Option.some_bind, Option.pure_def]
      split <;> rfl
    · rw [if_neg hlt, dif_neg hlt]

theorem dispatchChecked_eq (env : Env) (b : Bot) (e : Event) :
    dispatchChecked env b e = some (dispatch env b e) := by
  cases e with
  | connect origin params =>
    have h0 := channelsGet?_fin ⟨0, by decide⟩
    simp only at h0
    simp only [dispatchChecked, event_connectChecked, h0, Option.bind_eq_bind,
      Option.some_bind, Option.pure_def]
    rfl
  | join origin params =>
    simp only [dispatchChecked, dispatch, event_joinChecked, event_join]
    cases origin with
    | none => rfl
    | some nick =>
      simp only []
      split
      · rfl
      · split
        · rfl
        · by_cases hlt : b.joinIndex < nChannels
          · have h1 := channelsGet?_fin ⟨b.joinIndex, hlt⟩
            simp only at h1
            simp only [if_pos hlt, dif_pos hlt, h1, Option.bind_eq_bind, Option.some_bind,
              Option.pure_def]
          · simp only [if_neg hlt, dif_neg hlt, runSweepChecked, topicSweepChecked_eq,
              Option.bind_eq_bind, Option.some_bind, Option.pure_def]
            rfl
  | numeric event origin params =>
    simp only [dispatchChecked, dispatch, event_numericChecked, event_numeric,
      checkChannelTopicChecked_eq, Option.bind_eq_bind, Option.some_bind, Option.pure_def]
    split <;> rfl
  | topic origin params =>
    simp only [dispatchChecked, dispatch, event_topicChecked, event_topic,
      checkChannelTopicChecked_eq, runSweepChecked, topicSweepChecked_eq,
      Option.bind_eq_bind, Option.some_bind, Option.pure_def]
    rfl
  | part origin params => rfl
  | channel origin params => rfl
  | quit origin params => rfl

theorem topicSweep_idx_le (env : Env) :
    ∀ (fuel : Nat) (cur : Fin nChannels → Str) (idx : Nat), idx ≤ nChannels →
      (topicSweep env fuel cur idx).2.1 ≤ nChannels := by
  intro fuel
  induction fuel with
  | zero => intro cur idx h; exact h
  | succ fuel ih =>
    intro cur idx h
    rw [topicSweep]
    by_cases hlt : idx < nChannels
    · rw [dif_pos hlt]
      dsimp only
      split
      · exact hlt
      · exact ih _ _ hlt
    · rw [dif_neg hlt]
      exact h

/-- One event keeps both indices at most the channel count. -/
theorem dispatch_indices (env : Env) (b : Bot) (e : Event)
    (hj : b.joinIndex ≤ nChannels) (ht : b.topicIndex ≤ nChannels) :
    (dispatch env b e).1.joinIndex ≤ nChannels
      ∧ (dispatch env b e).1.topicIndex ≤ nChannels := by
  cases e with
  | connect origin params =>
    refine ⟨?_, ht⟩
    show 1 ≤ nChannels
    decide
  | join origin params =>
    simp only [dispatch, event_join]
    cases origin with
    | none => exact ⟨hj, ht⟩
    | some nick =>
      simp only []
      split
      · exact ⟨hj, ht⟩
      · split
        · exact ⟨hj, ht⟩
        · by_cases hlt : b.joinIndex < nChannels
          · simp only [dif_pos hlt]
            exact ⟨hlt, ht⟩
          · simp only [dif_neg hlt]
            exact ⟨hj, topicSweep_idx_le env _ _ 0 (Nat.zero_le _)⟩
  | numeric event origin params =>
    simp only [dispatch, event_numeric]
    split
    · exact ⟨hj, ht⟩
    · exact ⟨hj, ht⟩
  | topic origin params =>
    exact ⟨hj, topicSweep_idx_le env _ _ b.topicIndex ht⟩
  | part origin params =>
    simp only [dispatch, event_part]
    cases origin with
    | none => exact ⟨hj, ht⟩
    | some nick =>
      simp only []
      split <;> exact ⟨hj, ht⟩
  | channel origin params =>
    simp only [dispatch, event_channel]
    cases origin with
    | none => exact ⟨hj, ht⟩
    | some nick =>
      simp only []
      split <;> exact ⟨hj, ht⟩
  | quit origin params => exact ⟨hj, ht⟩

theorem run_indices (env : Env) :
    ∀ (es : List Event) (b : Bot), b.joinIndex ≤ nChannels → b.topicIndex ≤ nChannels →
      (run env b es).joinIndex ≤ nChannels ∧ (run env b es).topicIndex ≤ nChannels := by
  intro es
  induction es with
  | nil => intro b hj ht; exact ⟨hj, ht⟩
  | cons e es ih =>
    intro b hj ht
    have h := dispatch_indices env b e hj ht
    exact ih (dispatch env b e).1 h.1 h.2

/-- C19: in every state reached from the initial state by a sequence of connect, join,
topic, numeric-reply, part, quit and chat-message events, `joinIndex` and `topicIndex` are at
most 19, and handling any further event with the channel list, the desired-topic list and the
observed-topic table indexed by run-time numbers never reads or writes out of range: the
checked handlers return, with the result of the handlers of the embedding. -/
theorem index_safety (env : Env) (es : List Event) :
    (run env Bot.init es).joinIndex ≤ 19
      ∧ (run env Bot.init es).topicIndex ≤ 19
      ∧ ∀ e, dispatchChecked env (run env Bot.init es) e
          = some (dispatch env (run env Bot.init es) e) :=
  ⟨(run_indices env es Bot.init (Nat.zero_le _) (Nat.zero_le _)).1,
    (run_indices env es Bot.init (Nat.zero_le _) (Nat.zero_le _)).2,
    fun e => dispatchChecked_eq env _ e⟩

/-! ## Lock discipline -/

/-- C17, as the code has it: every operation on one of the four collections itself
(insertion, assignment, erasure, clearing: in `playerJoined`, `playerParted`, the create and
creator-leave branches of `playerMessage` and `resetStats`) and the size snapshot of the
status reporter happen while the mutex is held, the mutex is free when each function
returns, and no call of the notification, status or probe interface is made while it is
held. -/
theorem lock_discipline (r : Registry) (nick channel msg : Str) (ch : Option Str)
    (ping : Bool) :
    disciplined Act.isResize false (playerJoinedActs channel) = true
      ∧ disciplined Act.isResize false (playerPartedActs ch) = true
      ∧ disciplined Act.isResize false (playerMessageActs r nick channel msg) = true
      ∧ disciplined Act.isResize false resetStatsActs = true
      ∧ disciplined Act.isAccess false (statusUpdaterActs ping) = true := by
  refine ⟨?_, ?_, ?_, ?_, ?_⟩
  · unfold playerJoinedActs
    split
    · rfl
    · split <;> rfl
  · unfold playerPartedActs
    split <;> split <;> rfl
  · unfold playerMessageActs
    split
    · rfl
    · split
      · split
        · rfl
        · split <;> rfl
      · split
        · split
          · rfl
          · split
            · rfl
            · split <;> rfl
        · split
          · split
            · rfl
            · split
              · rfl
              · split
                · rfl
                · split
                  · rfl
                  · split <;> rfl
          · rfl
  · rfl
  · cases ping <;> rfl

/-- C17, as the claim states it, fails: the join token `<r:gamename>alice!m` sent by `bob`
while session `m` exists makes `playerMessage` look the session up and append to its
participant list with the mutex not held. -/
theorem lock_discipline_counterexample :
    playerMessageActs Registry.sample "bob".toList "#Aerial".toList
        (joinToken "alice".toList "m".toList)
        = [Act.read Coll.wwpGames, Act.update Coll.wwpGames]
      ∧ disciplined Act.isWrite false
          (playerMessageActs Registry.sample "bob".toList "#Aerial".toList
            (joinToken "alice".toList "m".toList)) = false := by
  decide

end IrcBot
